import Mathlib

/-!
A verification model of the `shadow-translate-bridge` mirror registry
(`MirrorManager` and its markup extraction/reconstruction transform).

The TypeScript source is shallowly embedded as follows:

* JavaScript `Map`s become association lists (`alookup` / `aset` / `aerase`);
  `Map.set` replaces in place or appends, `Map.delete` removes the key, which
  matches JS iteration-order semantics on maps whose keys are unique (JS maps
  guarantee key uniqueness, and `aset`/`aerase` preserve key uniqueness here).
* The mutable `MirrorEntry` objects, which are aliased by `valueToMirror` and
  `idToEntry` in the source, are embedded heap-style: `idToEntry` carries the
  entry records (keyed by the entry's unique id) and `valueToMirror` stores
  the id, i.e. the reference.  Every field mutation of an entry object becomes
  an update of `idToEntry` at that id.
* Callback functions are identified by their function identity only, so they
  are embedded as opaque `Nat` tokens; `Set<TranslationCallback>` becomes a
  duplicate-free `List Nat` in insertion order.
* `uuidv4()` is an external source of fresh, pairwise-distinct opaque strings;
  it is modelled by a per-manager counter rendered injectively into a string.
* DOM subtrees are the inductive `DomNode`/`DomForest`; `innerHTML`
  serialization, `TreeWalker` text-leaf traversal, `querySelectorAll` and
  `innerText` are modelled structurally.  `innerText` is modelled as the
  concatenation of descendant text (CSS-driven whitespace rendering of
  `innerText` is outside the model).  `DOMParser.parseFromString` is a browser
  black box and is therefore a parameter `parseHtml : String → DomForest`
  (producing the parsed `body` child forest) of every operation that parses.
* JS `String.prototype.split(sep).join(rep)` and `replace(/x/g, y)` become the
  char-level `replaceAll`.  `Number(s)` applied to a `data-stb-text-id`
  attribute followed by the array write `translatedTextList[id] = ...` either
  stores the text at an array index or is invisible to the substitution loop;
  which index (if any) each string denotes is decided by the host's IEEE-754
  `Number` primitive, so — as with `DOMParser` — the coercion is a parameter
  (`toIndex : String → Option Nat`) of the wrapper-tolerance development and
  the C10 theorem is proved for every coercion, hence for the exact JS
  semantics of numerals such as `"1.0"`, `"1e2"` and `"0x10"` (indices 1,
  100 and 16).  `jsIndex` is the concrete instance used by the executable
  pipeline, faithful on the optionally-signed decimal numerals that the code
  itself generates (the C1/C7 scenarios restrict to that domain).
-/

namespace STB

/-! ### Association lists (JS `Map`) -/

def alookup {κ α : Type} [DecidableEq κ] (k : κ) : List (κ × α) → Option α
  | [] => none
  | (k2, v) :: rest => if k2 = k then some v else alookup k rest

def aset {κ α : Type} [DecidableEq κ] (k : κ) (v : α) : List (κ × α) → List (κ × α)
  | [] => [(k, v)]
  | (k2, v2) :: rest => if k2 = k then (k, v) :: rest else (k2, v2) :: aset k v rest

def aerase {κ α : Type} [DecidableEq κ] (k : κ) (l : List (κ × α)) : List (κ × α) :=
  l.filter (fun p => !(p.1 = k : Bool))

@[simp] theorem alookup_nil {κ α : Type} [DecidableEq κ] (k : κ) :
    alookup k ([] : List (κ × α)) = none := rfl

theorem alookup_cons {κ α : Type} [DecidableEq κ] (k k2 : κ) (v : α) (l : List (κ × α)) :
    alookup k ((k2, v) :: l) = if k2 = k then some v else alookup k l := rfl

@[simp] theorem alookup_cons_self {κ α : Type} [DecidableEq κ] (k : κ) (v : α)
    (l : List (κ × α)) : alookup k ((k, v) :: l) = some v := by
  simp [alookup]

theorem alookup_cons_ne {κ α : Type} [DecidableEq κ] {k k2 : κ} (v : α) (l : List (κ × α))
    (h : k2 ≠ k) : alookup k ((k2, v) :: l) = alookup k l := by
  simp [alookup, h]

@[simp] theorem alookup_aset_self {κ α : Type} [DecidableEq κ] (k : κ) (v : α)
    (l : List (κ × α)) : alookup k (aset k v l) = some v := by
  induction l with
  | nil => simp [aset]
  | cons p rest ih =>
    by_cases h : p.1 = k
    · simp [aset, h]
    · simp [aset, h, alookup, ih]

theorem alookup_aset_ne {κ α : Type} [DecidableEq κ] {k k2 : κ} (v : α) (l : List (κ × α))
    (h : k2 ≠ k) : alookup k (aset k2 v l) = alookup k l := by
  induction l with
  | nil => simp [aset, alookup, h]
  | cons p rest ih =>
    by_cases h2 : p.1 = k2
    · simp [aset, h2, alookup, h, h2.symm ▸ h]
    · simp only [aset, h2, if_false, alookup, ih]

@[simp] theorem alookup_aerase_self {κ α : Type} [DecidableEq κ] (k : κ) (l : List (κ × α)) :
    alookup k (aerase k l) = none := by
  induction l with
  | nil => simp [aerase]
  | cons p rest ih =>
    by_cases h : p.1 = k
    · simpa [aerase, h] using ih
    · simpa [aerase, h, alookup, h] using ih

theorem alookup_aerase_ne {κ α : Type} [DecidableEq κ] {k k2 : κ} (l : List (κ × α))
    (h : k2 ≠ k) : alookup k (aerase k2 l) = alookup k l := by
  induction l with
  | nil => simp [aerase]
  | cons p rest ih =>
    by_cases h2 : p.1 = k2
    · rw [show alookup k (p :: rest) = alookup k rest from
        alookup_cons_ne _ _ (h2 ▸ h)]
      simpa [aerase, h2] using ih
    · simp only [aerase] at ih ⊢
      by_cases h3 : p.1 = k
      · simp [List.filter, h2, alookup, h3, ih, Ne.symm h]
      · simp [List.filter, h2, alookup, h3, ih]

/-- JS `Set.add`: append if absent (insertion-order iteration). -/
def setAdd (s : List Nat) (c : Nat) : List Nat :=
  if c ∈ s then s else s ++ [c]

/-! ### Char-level string operations (JS `split`/`join`, `trim`, `toLowerCase`) -/

/-- `leadsWith p s` holds when `p` is a prefix of `s` (char lists). -/
def leadsWith : List Char → List Char → Bool
  | [], _ => true
  | _ :: _, [] => false
  | a :: as, b :: bs => a == b && leadsWith as bs

theorem leadsWith_iff (p s : List Char) :
    leadsWith p s = true ↔ ∃ t, s = p ++ t := by
  induction p generalizing s with
  | nil => simp [leadsWith]
  | cons a as ih =>
    cases s with
    | nil =>
      simp only [leadsWith, List.cons_append]
      constructor
      · intro h; cases h
      · rintro ⟨t, ht⟩; cases ht
    | cons b bs =>
      simp only [leadsWith, Bool.and_eq_true, beq_iff_eq, ih, List.cons_append]
      constructor
      · rintro ⟨rfl, t, rfl⟩; exact ⟨t, rfl⟩
      · rintro ⟨t, ht⟩
        injection ht with h1 h2
        exact ⟨h1.symm, t, h2⟩

/-- JS `s.split(p)` on char lists, with `fuel` bounding the recursion depth
(always called with `fuel = s.length`, which suffices because each step
consumes at least one character).  The separator is `pc :: ps`, so it is
never empty. -/
def csplitF (pc : Char) (ps : List Char) : Nat → List Char → List (List Char)
  | _, [] => [[]]
  | 0, s => [s]
  | fuel + 1, c :: rest =>
    if leadsWith (pc :: ps) (c :: rest) then
      [] :: csplitF pc ps fuel (List.drop ps.length rest)
    else
      match csplitF pc ps fuel rest with
      | [] => [[c]]
      | h2 :: t => (c :: h2) :: t

/-- JS `arr.join(r)` on char lists. -/
def joinSep (r : List Char) : List (List Char) → List Char
  | [] => []
  | [x] => x
  | x :: xs => x ++ r ++ joinSep r xs

/-- JS `s.split(p).join(r)` (which is exactly `replaceAll` for a nonempty
separator; `buildTranslatedHtml` uses the split/join idiom and `escapeHtml`
uses `replace(/x/g, y)`, both of which this models).  An empty pattern never
occurs in the source (patterns are placeholder tokens and escape characters);
it is mapped to the identity. -/
def replaceAll (s p r : String) : String :=
  match p.data with
  | [] => s
  | pc :: ps => ⟨joinSep r.data (csplitF pc ps s.data.length s.data)⟩

/-- Occurrence of `p` as a contiguous substring of `s` (char lists). -/
def occursIn (p s : List Char) : Prop := ∃ a b, s = a ++ p ++ b

/-- Decision procedure for `occursIn`. -/
def occursInB (p : List Char) : List Char → Bool
  | [] => leadsWith p []
  | c :: rest => leadsWith p (c :: rest) || occursInB p rest

theorem occursInB_iff (p s : List Char) : occursInB p s = true ↔ occursIn p s := by
  induction s with
  | nil =>
    simp only [occursInB, leadsWith_iff, occursIn]
    constructor
    · rintro ⟨t, ht⟩
      exact ⟨[], t, by simpa using ht⟩
    · rintro ⟨a, b, hab⟩
      have := hab.symm
      rcases List.append_eq_nil.mp (List.append_eq_nil.mp this).1 with ⟨_, h2⟩
      exact ⟨b, by simp [h2] at hab ⊢; tauto⟩
  | cons c rest ih =>
    simp only [occursInB, Bool.or_eq_true, leadsWith_iff, ih, occursIn]
    constructor
    · rintro (⟨t, ht⟩ | ⟨a, b, hab⟩)
      · exact ⟨[], t, by simpa using ht⟩
      · exact ⟨c :: a, b, by simp [hab]⟩
    · rintro ⟨a, b, hab⟩
      cases a with
      | nil => exact Or.inl ⟨b, by simpa using hab⟩
      | cons a0 as =>
        injection hab with h1 h2
        exact Or.inr ⟨as, b, h2⟩

instance (p s : List Char) : Decidable (occursIn p s) :=
  decidable_of_iff _ (occursInB_iff p s)

theorem occursIn_of_append (p q s : List Char) (h : occursIn (p ++ q) s) :
    occursIn p s := by
  rcases h with ⟨a, b, hab⟩
  exact ⟨a, q ++ b, by simp [hab]⟩

theorem not_occursIn_cons {p : List Char} {c : Char} {rest : List Char}
    (h : ¬occursIn p (c :: rest)) : ¬occursIn p rest := by
  intro ⟨a, b, hab⟩
  exact h ⟨c :: a, b, by simp [hab]⟩

theorem leadsWith_false_of_not_occursIn {p s : List Char} (_ : p ≠ [])
    (h : ¬occursIn p s) : leadsWith p s = false := by
  by_contra hb
  have : leadsWith p s = true := by
    cases hlw : leadsWith p s
    · exact absurd hlw hb
    · rfl
  rcases (leadsWith_iff p s).mp this with ⟨t, rfl⟩
  exact h ⟨[], t, by simp⟩

theorem csplitF_of_not_occursIn (pc : Char) (ps : List Char) (s : List Char)
    (fuel : Nat) (h : ¬occursIn (pc :: ps) s) :
    csplitF pc ps fuel s = [s] := by
  induction fuel generalizing s with
  | zero => cases s <;> rfl
  | succ fuel ih =>
    cases s with
    | nil => rfl
    | cons c rest =>
      have hlw : leadsWith (pc :: ps) (c :: rest) = false :=
        leadsWith_false_of_not_occursIn (by simp) h
      have hrest := ih rest (not_occursIn_cons h)
      simp [csplitF, hlw, hrest]

theorem replaceAll_of_not_occursIn (s p r : String) (h : ¬occursIn p.data s.data) :
    replaceAll s p r = s := by
  unfold replaceAll
  cases hp : p.data with
  | nil => rfl
  | cons pc ps =>
    have h2 : ¬occursIn (pc :: ps) s.data := hp ▸ h
    simp only [csplitF_of_not_occursIn pc ps s.data s.data.length h2, joinSep]

/-- JS whitespace test for `String.prototype.trim` / `Number` coercion
(restricted to the common ASCII whitespace characters). -/
def isWsChar (c : Char) : Bool :=
  c == ' ' || c == Char.ofNat 9 || c == Char.ofNat 10 || c == Char.ofNat 13 ||
  c == Char.ofNat 12 || c == Char.ofNat 11

/-- JS `s.trim()` on the underlying char list. -/
def jsTrim (s : String) : String :=
  ⟨((s.data.dropWhile isWsChar).reverse.dropWhile isWsChar).reverse⟩

def lowerChar (c : Char) : Char :=
  if 65 ≤ c.toNat ∧ c.toNat ≤ 90 then Char.ofNat (c.toNat + 32) else c

/-- Lower-casing used by `innerHTML` serialization of tag names. -/
def lowerStr (s : String) : String := ⟨s.data.map lowerChar⟩

/-! ### `Number(attr)` used as a JS array index

`buildTranslatedHtml` runs `const id = Number(node.dataset.stbTextId);
if (!Number.isNaN(id)) translatedTextList[id] = ...`.  A write at a
non-negative integral number `k` below the array bound stores at position
`k` (growing the array, holes reading as `undefined`, hence `"" ` after
`|| ""`); NaN is skipped explicitly, and a negative, non-integral, infinite
or beyond-range number stores an ordinary object property that the index
loop (`i < translatedTextList.length`) never reads — both are no-ops for
the produced output.  `jsIndex` is the concrete executable instance of this
string-to-index coercion on the optionally-signed decimal numerals (with
the whitespace and empty-string-coerces-to-0 cases).  The JS `Number`
grammar also coerces other forms to real indices (hex `"0x10"` to 16,
exponent `"1e2"` to 100, fraction `"1.0"` to 1, Unicode-whitespace-padded
numerals): those are not decided by `jsIndex`; the C10 theorem quantifies
over every coercion `toIndex : String → Option Nat` and therefore covers
the host primitive's exact behaviour on all of them. -/

def digitsVal : List Char → Option Nat
  | [] => none
  | l =>
    l.foldl
      (fun acc c =>
        match acc with
        | none => none
        | some n => if c.isDigit then some (n * 10 + (c.toNat - 48)) else none)
      (some 0)

def jsIndex (s : String) : Option Nat :=
  match (jsTrim s).data with
  | [] => some 0
  | c :: rest =>
    if c == Char.ofNat 43 then digitsVal rest
    else if c == Char.ofNat 45 then
      match digitsVal rest with
      | some 0 => some 0
      | _ => none
    else digitsVal (c :: rest)

/-- JS sparse-array write `a[k] = v` for a dense prefix list: in-bounds set,
else grow with `undefined` holes (read back as `""` through `|| ""`). -/
def setGrow (l : List String) (k : Nat) (v : String) : List String :=
  if k < l.length then l.set k v
  else l ++ List.replicate (k - l.length) "" ++ [v]

/-! ### DOM model

A `DomForest` is a child list of a DOM element (text nodes and elements with
their attribute lists and children).  The mutual inductive keeps all the
traversals structurally recursive, so they reduce in the kernel. -/

mutual
inductive DomNode : Type where
  | text : String → DomNode
  | elem : String → List (String × String) → DomForest → DomNode
inductive DomForest : Type where
  | nil : DomForest
  | cons : DomNode → DomForest → DomForest
end

/-- Attribute lookup (`el.getAttribute` / `el.dataset.*`): first match. -/
def getAttr (attrs : List (String × String)) (name : String) : Option String :=
  alookup name attrs

/- `innerText`, modelled as concatenated descendant text in document order
(the CSS-rendering aspects of `innerText` — whitespace collapsing, hidden
subtrees — are outside the model). -/
mutual
def innerTextN : DomNode → String
  | .text s => s
  | .elem _ _ kids => innerTextF kids
def innerTextF : DomForest → String
  | .nil => ""
  | .cons n rest => innerTextN n ++ innerTextF rest
end

/-- Text-node escaping performed by `innerHTML` serialization. -/
def serText (s : String) : String :=
  replaceAll (replaceAll (replaceAll s "&" "&amp;") "<" "&lt;") ">" "&gt;"

/-- Attribute-value escaping performed by `innerHTML` serialization. -/
def serAttrVal (s : String) : String :=
  replaceAll (replaceAll s "&" "&amp;") "\"" "&quot;"

def serAttrs : List (String × String) → String
  | [] => ""
  | (n, v) :: rest => " " ++ n ++ "=" ++ "\"" ++ serAttrVal v ++ "\"" ++ serAttrs rest

/- `innerHTML` serialization of a child forest (tag names lower-cased, text
and attribute values escaped; void-element special cases are outside the
model — the concrete markup used in the claims has none). -/
mutual
def serializeNode : DomNode → String
  | .text s => serText s
  | .elem tag attrs kids =>
    "<" ++ lowerStr tag ++ serAttrs attrs ++ ">" ++ serializeForest kids ++
      "</" ++ lowerStr tag ++ ">"
def serializeForest : DomForest → String
  | .nil => ""
  | .cons n rest => serializeNode n ++ serializeForest rest
end

/-- `HTML_SKIP_TAGS` of the source. -/
def HTML_SKIP_TAGS : List String := ["SCRIPT", "STYLE", "NOSCRIPT"]

/-- The filter of `collectTranslatableTextNodes`: the text node's parent tag
is not a skip tag and the text is not whitespace-only. -/
def isTranslatable (parentTag : String) (s : String) : Bool :=
  !HTML_SKIP_TAGS.contains parentTag && !((jsTrim s) == "")

def HTML_TEXT_PLACEHOLDER_PREFIX : String := "__STB_TEXT_"
def HTML_TEXT_PLACEHOLDER_SUFFIX : String := "__"

/-- The positional placeholder token for leaf `i`. -/
def ph (i : Nat) : String :=
  HTML_TEXT_PLACEHOLDER_PREFIX ++ Nat.repr i ++ HTML_TEXT_PLACEHOLDER_SUFFIX

/- The mirror-copy transform of `buildHtmlMirror`: each translatable text
leaf (in `TreeWalker` document order, numbered from `i`) is replaced by
`<span data-stb-text-id="i">leafText</span>`.  Returns the transformed
forest and the next leaf index. -/
mutual
def wrapNode (ptag : String) (i : Nat) : DomNode → DomNode × Nat
  | .text s =>
    if isTranslatable ptag s then
      (.elem "SPAN" [("data-stb-text-id", Nat.repr i)] (.cons (.text s) .nil), i + 1)
    else (.text s, i)
  | .elem tag attrs kids =>
    let r := wrapForest tag i kids
    (.elem tag attrs r.1, r.2)
def wrapForest (ptag : String) (i : Nat) : DomForest → DomForest × Nat
  | .nil => (.nil, i)
  | .cons n rest =>
    let r := wrapNode ptag i n
    let r2 := wrapForest ptag r.2 rest
    (.cons r.1 r2.1, r2.2)
end

/- The template-copy transform of `buildHtmlMirror`: each translatable text
leaf's content is replaced by its positional placeholder token. -/
mutual
def templNode (ptag : String) (i : Nat) : DomNode → DomNode × Nat
  | .text s =>
    if isTranslatable ptag s then (.text (ph i), i + 1) else (.text s, i)
  | .elem tag attrs kids =>
    let r := templForest tag i kids
    (.elem tag attrs r.1, r.2)
def templForest (ptag : String) (i : Nat) : DomForest → DomForest × Nat
  | .nil => (.nil, i)
  | .cons n rest =>
    let r := templNode ptag i n
    let r2 := templForest ptag r.2 rest
    (.cons r.1 r2.1, r2.2)
end

structure HtmlMirror where
  htmlWithSpans : String
  template : String
  textCount : Nat
  /-- The parsed form of `htmlWithSpans` (the mirror node's children after
  `el.innerHTML = htmlWithSpans`, assuming the browser's serialize/parse
  round-trip on the well-formed trees produced here). -/
  mirrorForest : DomForest

/-- `MirrorManager.buildHtmlMirror`.  The source clones one parse of `value`
twice and walks both copies; the copies are equal, so the two walks visit
the same leaves and `Math.min` of the two counts is the single walk's
count. -/
def buildHtmlMirror (parseHtml : String → DomForest) (value : String) : HtmlMirror :=
  let base := parseHtml value
  let w := wrapForest "BODY" 0 base
  let t := templForest "BODY" 0 base
  { htmlWithSpans := serializeForest w.1
    template := serializeForest t.1
    textCount := w.2
    mirrorForest := w.1 }

/- `querySelectorAll("[data-stb-text-id]")` over the mirror node's children
plus the per-node reads `node.dataset.stbTextId` and `node.innerText`:
returns `(attributeValue, innerText)` pairs in document order, including
elements whose attribute value is empty or garbage (attribute presence is
all the selector checks). -/
mutual
def wrappersN : DomNode → List (String × String)
  | .text _ => []
  | .elem _ attrs kids =>
    (match getAttr attrs "data-stb-text-id" with
     | some v => [(v, innerTextF kids)]
     | none => []) ++ wrappersF kids
def wrappersF : DomForest → List (String × String)
  | .nil => []
  | .cons n rest => wrappersN n ++ wrappersF rest
end

/-- `MirrorManager.escapeHtml` (sequential global replaces, `&` first). -/
def escapeHtml (value : String) : String :=
  replaceAll
    (replaceAll
      (replaceAll
        (replaceAll
          (replaceAll value "&" "&amp;")
          "<" "&lt;")
        ">" "&gt;")
      "\"" "&quot;")
    (String.singleton (Char.ofNat 39)) "&#39;"

/-- The dense translated-text array built by `buildTranslatedHtml`:
`new Array(count).fill("")` followed by `translatedTextList[id] = node.innerText`
for every wrapper whose attribute coerces to a non-NaN number (array-index
writes only, see `jsIndex`). -/
def collectTranslated (ws : List (String × String)) (count : Nat) : List String :=
  ws.foldl
    (fun acc w =>
      match jsIndex w.1 with
      | some k => setGrow acc k w.2
      | none => acc)
    (List.replicate count "")

/-- The substitution loop of `buildTranslatedHtml`:
`for i in [0, list.length): result = result.split(ph i).join(escapeHtml(list[i] || ""))`. -/
def substLoop (template : String) (lst : List String) : String :=
  (List.range lst.length).foldl
    (fun r i => replaceAll r (ph i) (escapeHtml (lst.getD i ""))) template

/-- `MirrorManager.buildTranslatedHtml` for a markup entry with extraction
template `template` and leaf count `count` (`entry.textCount ?? ws.length`
is resolved by the caller), applied to the wrapper list collected from the
mirror element. -/
def buildTranslatedCore (template : String) (count : Nat)
    (ws : List (String × String)) : String :=
  substLoop template (collectTranslated ws count)

/-! ### The `MirrorManager` state -/

inductive TranslateMode : Type where
  | text : TranslateMode
  | html : TranslateMode
deriving DecidableEq

/-- The string interpolated by `getValueKey`. -/
def TranslateMode.str : TranslateMode → String
  | .text => "text"
  | .html => "html"

/-- `MirrorManager.getValueKey`: the dedup key `${mode}:${value}`. -/
def getValueKey (mode : TranslateMode) (value : String) : String :=
  mode.str ++ ":" ++ value

/-- `MirrorManager.getTranslateMode`: `options?.mode === "html" ? "html" : "text"`. -/
def getTranslateMode (options : Option TranslateMode) : TranslateMode :=
  if options = some .html then .html else .text

structure MirrorEntry where
  id : String
  value : String
  count : Nat
  mode : TranslateMode
  template : Option String := none
  textCount : Option Nat := none
deriving DecidableEq

/-- `MirrorManager.buildTranslatedHtml` applied to a mirror element with
child forest `mirrorKids`.  An absent template — and also an *empty* template
string, which is falsy in `if (!entry.template)` — falls back to the
element's `innerText`; otherwise the wrapper texts are substituted into the
template (`entry.textCount ?? textNodes.length` sizes the dense array). -/
def buildTranslatedHtml (mirrorKids : DomForest) (entry : MirrorEntry) : String :=
  match entry.template with
  | none => innerTextF mirrorKids
  | some t =>
    if t = "" then innerTextF mirrorKids
    else
      buildTranslatedCore t (entry.textCount.getD (wrappersF mirrorKids).length)
        (wrappersF mirrorKids)

/-- A child of the hidden container: the `div` created by `register`, carrying
`data-mirror-id` and its rendered children.  `nodeId` is the DOM object
identity of the element (allocation number), used to express "the same node
was mutated in place" versus "a new node was created". -/
structure MirrorNode where
  nodeId : Nat
  mirrorId : String
  kids : DomForest

/-- The fields of the singleton `MirrorManager`.  `nextUuid` models the
`uuidv4()` stream (one increment per call), `nextNode` the allocation of DOM
elements. -/
structure MState where
  nextUuid : Nat := 0
  nextNode : Nat := 0
  observers : List (String × List Nat) := []
  valueToMirror : List (String × String) := []
  idToEntry : List (String × MirrorEntry) := []
  instanceToMirror : List (String × String) := []
  instanceToCallback : List (String × Nat) := []
  instanceToMode : List (String × TranslateMode) := []
  container : List MirrorNode := []

def initState : MState := {}

/-- An opaque fresh string for the `n`-th `uuidv4()` call (any injective
rendering models the uuid stream's freshness). -/
def uuidStr (n : Nat) : String := ⟨List.replicate n 'u'⟩

def mkMirrorId (n : Nat) : String := "stb-" ++ uuidStr n

def mkInstanceId (n : Nat) : String := "stb-i-" ++ uuidStr n

/-- `container.querySelector('[data-mirror-id="${mid}"]')`, restricted to the
container's direct children (every mirror node is a direct child; a nested
element inside registered markup could in principle carry the attribute, but
it can only shadow a looked-up id if the registered value contains the exact
random uuid, which the model excludes). -/
def findChild (mid : String) : List MirrorNode → Option MirrorNode
  | [] => none
  | nd :: rest => if nd.mirrorId = mid then some nd else findChild mid rest

/-- `el?.remove()` after the query above: removes the first matching child. -/
def removeChild (mid : String) : List MirrorNode → List MirrorNode
  | [] => []
  | nd :: rest => if nd.mirrorId = mid then rest else nd :: removeChild mid rest

/-- In-place mutation of the found child's content (`el.innerHTML = ...` /
`el.innerText = ...`): the element object (its `nodeId`) is preserved. -/
def replaceChildKids (mid : String) (kids : DomForest) : List MirrorNode → List MirrorNode
  | [] => []
  | nd :: rest =>
    if nd.mirrorId = mid then { nd with kids := kids } :: rest
    else nd :: replaceChildKids mid kids rest

/-- The rendered children of a fresh mirror node (`el.innerHTML =
htmlWithSpans` for html mode, `el.innerText = value` for text mode) together
with the entry completed with its template fields. -/
def renderEntry (parseHtml : String → DomForest) (base : MirrorEntry)
    (value : String) : MirrorEntry × DomForest :=
  match base.mode with
  | .html =>
    let h := buildHtmlMirror parseHtml value
    ({ base with template := some h.template, textCount := some h.textCount },
      h.mirrorForest)
  | .text => (base, .cons (.text value) .nil)

/-- `MirrorManager.register`. -/
def register (parseHtml : String → DomForest) (value : String) (onChange : Nat)
    (options : Option TranslateMode) (st : MState) : String × MState :=
  let mode := getTranslateMode options
  let key := getValueKey mode value
  match alookup key st.valueToMirror with
  | some mid =>
    -- dedup hit: existing.count += 1 (mutation of the shared entry object)
    let st1 := { st with idToEntry :=
      (match alookup mid st.idToEntry with
      | some e => aset mid { e with count := e.count + 1 } st.idToEntry
      | none => st.idToEntry) }
    -- observers.get(existing.id)?.add(onChange)
    let st2 := { st1 with observers :=
      (match alookup mid st1.observers with
      | some s => aset mid (setAdd s onChange) st1.observers
      | none => st1.observers) }
    let instanceId := mkInstanceId st.nextUuid
    (instanceId, { st2 with
      nextUuid := st.nextUuid + 1
      instanceToMirror := aset instanceId mid st2.instanceToMirror
      instanceToCallback := aset instanceId onChange st2.instanceToCallback
      instanceToMode := aset instanceId mode st2.instanceToMode })
  | none =>
    let mirrorId := mkMirrorId st.nextUuid
    let ek := renderEntry parseHtml
      { id := mirrorId, value := value, count := 1, mode := mode } value
    let node : MirrorNode :=
      { nodeId := st.nextNode, mirrorId := mirrorId, kids := ek.2 }
    let instanceId := mkInstanceId (st.nextUuid + 1)
    (instanceId, { st with
      nextUuid := st.nextUuid + 2
      nextNode := st.nextNode + 1
      observers := aset mirrorId [onChange] st.observers
      valueToMirror := aset key mirrorId st.valueToMirror
      idToEntry := aset mirrorId ek.1 st.idToEntry
      container := st.container ++ [node]
      instanceToMirror := aset instanceId mirrorId st.instanceToMirror
      instanceToCallback := aset instanceId onChange st.instanceToCallback
      instanceToMode := aset instanceId mode st.instanceToMode })

/-- `MirrorManager.detachInstance`.  `entry.count -= 1; if (entry.count <= 0)`
becomes the `e.count - 1 = 0` test (entries always have `count ≥ 1` when
live, and Nat subtraction truncates exactly like the JS comparison on the
reachable values). -/
def detachInstance (instanceId mirrorId : String) (callback : Nat)
    (st : MState) : MState :=
  let st1 :=
    match alookup mirrorId st.idToEntry with
    | some e =>
      if e.count - 1 = 0 then
        { st with
          valueToMirror := aerase (getValueKey e.mode e.value) st.valueToMirror
          idToEntry := aerase mirrorId st.idToEntry
          observers := aerase mirrorId st.observers
          container := removeChild mirrorId st.container }
      else
        { st with idToEntry := aset mirrorId { e with count := e.count - 1 } st.idToEntry }
    | none => st
  let st2 :=
    match alookup mirrorId st1.observers with
    | some s =>
      let s2 := s.erase callback
      if s2 = [] then { st1 with observers := aerase mirrorId st1.observers }
      else { st1 with observers := aset mirrorId s2 st1.observers }
    | none => st1
  { st2 with
    instanceToMirror := aerase instanceId st2.instanceToMirror
    instanceToCallback := aerase instanceId st2.instanceToCallback
    instanceToMode := aerase instanceId st2.instanceToMode }

/-- `MirrorManager.unregister`. -/
def unregister (instanceId : String) (st : MState) : MState :=
  match alookup instanceId st.instanceToMirror, alookup instanceId st.instanceToCallback with
  | some mirrorId, some callback => detachInstance instanceId mirrorId callback st
  | _, _ => st

/-- `MirrorManager.clearTranslateBridge`. -/
def clearTranslateBridge (st : MState) : MState :=
  { st with
    observers := []
    valueToMirror := []
    idToEntry := []
    instanceToMirror := []
    instanceToCallback := []
    instanceToMode := []
    container := [] }

/-- The branch of `updateValue` that detaches the instance and creates a
brand-new entry/node for the new value (the "value changed while entry is
shared by others" path, also taken when the current entry is missing). -/
def updateFork (parseHtml : String → DomForest) (instanceId mirrorId newValue : String)
    (mode : TranslateMode) (callback : Nat) (st : MState) : MState :=
  let st1 := detachInstance instanceId mirrorId callback st
  let newMirrorId := mkMirrorId st1.nextUuid
  let ek := renderEntry parseHtml
    { id := newMirrorId, value := newValue, count := 1, mode := mode } newValue
  let node : MirrorNode :=
    { nodeId := st1.nextNode, mirrorId := newMirrorId, kids := ek.2 }
  { st1 with
    nextUuid := st1.nextUuid + 1
    nextNode := st1.nextNode + 1
    valueToMirror := aset (getValueKey mode newValue) newMirrorId st1.valueToMirror
    idToEntry := aset newMirrorId ek.1 st1.idToEntry
    observers := aset newMirrorId [callback] st1.observers
    container := st1.container ++ [node]
    instanceToMirror := aset instanceId newMirrorId st1.instanceToMirror
    instanceToMode := aset instanceId mode st1.instanceToMode }
  -- note: the source does not restore instanceToCallback on this path

/-- `MirrorManager.updateValue`. -/
def updateValue (parseHtml : String → DomForest) (instanceId newValue : String)
    (st : MState) : MState :=
  match alookup instanceId st.instanceToMirror with
  | none => st
  | some mirrorId =>
    let mode := (alookup instanceId st.instanceToMode).getD .text
    let currentEntry := alookup mirrorId st.idToEntry
    if currentEntry.map MirrorEntry.value = some newValue then st
    else
      match alookup instanceId st.instanceToCallback with
      | none => st
      | some callback =>
        match alookup (getValueKey mode newValue) st.valueToMirror with
        | some targetMid =>
          -- reattach to the existing target entry
          let targetMode :=
            ((alookup targetMid st.idToEntry).map MirrorEntry.mode).getD mode
          let st1 := detachInstance instanceId mirrorId callback st
          let st2 := { st1 with idToEntry :=
            (match alookup targetMid st1.idToEntry with
            | some te => aset targetMid { te with count := te.count + 1 } st1.idToEntry
            | none => st1.idToEntry) }
          let st3 := { st2 with observers :=
            (match alookup targetMid st2.observers with
            | some s => aset targetMid (setAdd s callback) st2.observers
            | none => st2.observers) }
          { st3 with
            instanceToMirror := aset instanceId targetMid st3.instanceToMirror
            instanceToMode := aset instanceId targetMode st3.instanceToMode }
          -- note: the source does not restore instanceToCallback on this path
        | none =>
          match currentEntry with
          | some ce =>
            if ce.count = 1 then
              -- sole owner: mutate the node and the entry in place, re-key
              let stA :=
                match findChild mirrorId st.container with
                | some nd =>
                  match mode with
                  | .html =>
                    let h := buildHtmlMirror parseHtml newValue
                    { st with
                      container := replaceChildKids mirrorId h.mirrorForest st.container
                      idToEntry := aset mirrorId
                        { ce with template := some h.template, textCount := some h.textCount }
                        st.idToEntry }
                  | .text =>
                    if innerTextF nd.kids = newValue then st
                    else { st with
                      container := replaceChildKids mirrorId
                        (.cons (.text newValue) .nil) st.container }
                | none => st
              let ce2 := (alookup mirrorId stA.idToEntry).getD ce
              { stA with
                valueToMirror := aset (getValueKey ce.mode newValue) mirrorId
                  (aerase (getValueKey ce.mode ce.value) stA.valueToMirror)
                idToEntry := aset mirrorId { ce2 with value := newValue } stA.idToEntry }
            else updateFork parseHtml instanceId mirrorId newValue mode callback st
          | none => updateFork parseHtml instanceId mirrorId newValue mode callback st

/-! ### The change notifier (`MutationObserver` callback) -/

def forestGet : DomForest → Nat → Option DomNode
  | .nil, _ => none
  | .cons n _, 0 => some n
  | .cons _ rest, i + 1 => forestGet rest i

/-- `findMirrorElement` below a given element: a mutation target inside the
forest is addressed by a child-index path; the nearest self-or-ancestor
carrying a non-empty `data-mirror-id` is the deepest marked element along the
path (a target that is a text node starts the walk at its parent, which is
what falling through to the enclosing frames models). -/
def resolveInner : DomForest → List Nat → Option (String × DomForest)
  | _, [] => none
  | kids, i :: rest =>
    match forestGet kids i with
    | some (.elem _ attrs ks) =>
      match resolveInner ks rest with
      | some r => some r
      | none =>
        match getAttr attrs "data-mirror-id" with
        | some v => if v = "" then none else some (v, ks)
        | none => none
    | _ => none

/-- `MirrorManager.findMirrorElement` for a mutation whose target lies inside
the container child at index `childIdx`, at `path` below it.  Returns the
resolved mirror element's id and child forest (walking up stops at the
container, which carries no mirror id). -/
def findMirrorElement (container : List MirrorNode) (childIdx : Nat)
    (path : List Nat) : Option (String × DomForest) :=
  match container.get? childIdx with
  | none => none
  | some nd =>
    match resolveInner nd.kids path with
    | some r => some r
    | none => if nd.mirrorId = "" then none else some (nd.mirrorId, nd.kids)

/-- The body of the `MutationObserver` callback for one mutation record
(`childList` or `characterData`): resolve the mirror element, and if its id
has live observers, invoke every callback in that id's set with the
translated payload (reconstructed markup for html entries, `innerText`
otherwise).  Returns the `(callback, payload)` invocations. -/
def dispatchChange (st : MState) (childIdx : Nat) (path : List Nat) :
    List (Nat × String) :=
  match findMirrorElement st.container childIdx path with
  | none => []
  | some (id, kids) =>
    match alookup id st.observers with
    | none => []
    | some s =>
      match alookup id st.idToEntry with
      | some e =>
        if e.mode = .html then
          s.map (fun cb => (cb, buildTranslatedHtml kids e))
        else s.map (fun cb => (cb, innerTextF kids))
      | none => s.map (fun cb => (cb, innerTextF kids))

/-! ### Basic facts about keys and ids -/

theorem getTranslateMode_some (m : TranslateMode) : getTranslateMode (some m) = m := by
  cases m <;> rfl

theorem getValueKey_inj {m m2 : TranslateMode} {v v2 : String}
    (h : getValueKey m v = getValueKey m2 v2) : m = m2 ∧ v = v2 := by
  have hd := congrArg String.data h
  cases m <;> cases m2 <;>
    simp only [getValueKey, TranslateMode.str, String.data_append,
      show ("text" : String).data = ['t','e','x','t'] from rfl,
      show ("html" : String).data = ['h','t','m','l'] from rfl,
      show (":" : String).data = [':'] from rfl] at hd <;>
    simp only [List.cons_append, List.nil_append, List.cons.injEq] at hd
  · exact ⟨rfl, String.ext (by tauto)⟩
  · tauto
  · tauto
  · exact ⟨rfl, String.ext (by tauto)⟩

theorem getValueKey_ne_of_ne {m : TranslateMode} {v v2 : String} (h : v ≠ v2) :
    getValueKey m v ≠ getValueKey m v2 :=
  fun hc => h (getValueKey_inj hc).2

theorem mkInstanceId_inj {a b : Nat} (h : mkInstanceId a = mkInstanceId b) : a = b := by
  have hd := congrArg String.data h
  simp only [mkInstanceId, uuidStr, String.data_append,
    show ("stb-i-" : String).data = ['s','t','b','-','i','-'] from rfl] at hd
  simpa using congrArg List.length hd

theorem mkMirrorId_inj {a b : Nat} (h : mkMirrorId a = mkMirrorId b) : a = b := by
  have hd := congrArg String.data h
  simp only [mkMirrorId, uuidStr, String.data_append,
    show ("stb-" : String).data = ['s','t','b','-'] from rfl] at hd
  simpa using congrArg List.length hd

theorem mkMirrorId_ne_mkInstanceId (a b : Nat) : mkMirrorId a ≠ mkInstanceId b := by
  intro h
  have hd := congrArg String.data h
  cases a with
  | zero =>
    simp [mkMirrorId, mkInstanceId, uuidStr, String.data_append,
      show ("stb-" : String).data = ['s','t','b','-'] from rfl,
      show ("stb-i-" : String).data = ['s','t','b','-','i','-'] from rfl] at hd
  | succ a =>
    simp [mkMirrorId, mkInstanceId, uuidStr, String.data_append, List.replicate,
      show ("stb-" : String).data = ['s','t','b','-'] from rfl,
      show ("stb-i-" : String).data = ['s','t','b','-','i','-'] from rfl] at hd

@[simp] theorem renderEntry_count (parseHtml : String → DomForest) (base : MirrorEntry)
    (value : String) : (renderEntry parseHtml base value).1.count = base.count := by
  cases hm : base.mode <;> simp [renderEntry, hm]

@[simp] theorem renderEntry_id (parseHtml : String → DomForest) (base : MirrorEntry)
    (value : String) : (renderEntry parseHtml base value).1.id = base.id := by
  cases hm : base.mode <;> simp [renderEntry, hm]

@[simp] theorem renderEntry_value (parseHtml : String → DomForest) (base : MirrorEntry)
    (value : String) : (renderEntry parseHtml base value).1.value = base.value := by
  cases hm : base.mode <;> simp [renderEntry, hm]

@[simp] theorem renderEntry_mode (parseHtml : String → DomForest) (base : MirrorEntry)
    (value : String) : (renderEntry parseHtml base value).1.mode = base.mode := by
  cases hm : base.mode <;> simp [renderEntry, hm]

/-! ### Claim theorems -/

/-- Claim C2 (dedup): for every value `v` and mode `m`, registering `v` twice
under mode `m` (with any callbacks) returns two distinct instance ids that
both resolve to the same mirror id, whose entry has `count = 2`; the second
register creates no DOM node, so exactly one mirror node for `v` exists in
the container. -/
theorem c2_dedup (parseHtml : String → DomForest) (v : String) (cb1 cb2 : Nat)
    (m : TranslateMode) :
    let r1 := register parseHtml v cb1 (some m) initState
    let r2 := register parseHtml v cb2 (some m) r1.2
    r1.1 ≠ r2.1 ∧
    alookup r1.1 r2.2.instanceToMirror = some (mkMirrorId 0) ∧
    alookup r2.1 r2.2.instanceToMirror = some (mkMirrorId 0) ∧
    (∃ e, alookup (mkMirrorId 0) r2.2.idToEntry = some e ∧ e.count = 2) ∧
    r2.2.container = r1.2.container ∧
    (∃ nd, r1.2.container = [nd] ∧ nd.mirrorId = mkMirrorId 0) := by
  intro r1 r2
  simp only [r1, r2, register, initState, getTranslateMode_some, alookup_nil,
    alookup_aset_self]
  repeat' apply And.intro
  all_goals
    first
      | rfl
      | trivial
      | (intro h; exact absurd (mkInstanceId_inj h) (by decide))
      | (rw [alookup_aset_ne _ _ (by decide), alookup_aset_self])
      | (refine ⟨_, alookup_aset_self _ _ _, ?_⟩; simp)
      | (refine ⟨_, rfl, ?_⟩; simp)

/-- Claim C9 (clear and stale-id tolerance): after `clearTranslateBridge()`
the container has no children and every table is empty; any instance id
passed to `unregister`/`updateValue` afterwards is a silent no-op (the state
is unchanged); `unregister` is idempotent on every state, so unregistering an
already-unregistered or unknown id is always a silent no-op; and the cleared
state is exactly a pristine manager (modulo the uuid/node allocation
counters, which the source never resets), so a subsequent `register` behaves
as a first registration. -/
theorem c9_clear_stale_noop (parseHtml : String → DomForest) (st st2 : MState)
    (i v : String) (cb : Nat) (opts : Option TranslateMode) :
    (clearTranslateBridge st).container = [] ∧
    (clearTranslateBridge st).observers = [] ∧
    (clearTranslateBridge st).valueToMirror = [] ∧
    (clearTranslateBridge st).idToEntry = [] ∧
    (clearTranslateBridge st).instanceToMirror = [] ∧
    (clearTranslateBridge st).instanceToCallback = [] ∧
    (clearTranslateBridge st).instanceToMode = [] ∧
    unregister i (clearTranslateBridge st) = clearTranslateBridge st ∧
    updateValue parseHtml i v (clearTranslateBridge st) = clearTranslateBridge st ∧
    unregister i (unregister i st2) = unregister i st2 ∧
    clearTranslateBridge st
      = { initState with nextUuid := st.nextUuid, nextNode := st.nextNode } ∧
    register parseHtml v cb opts (clearTranslateBridge st)
      = register parseHtml v cb opts
          { initState with nextUuid := st.nextUuid, nextNode := st.nextNode } := by
  refine ⟨rfl, rfl, rfl, rfl, rfl, rfl, rfl, ?_, ?_, ?_, rfl, rfl⟩
  · simp [unregister, clearTranslateBridge]
  · simp [updateValue, clearTranslateBridge]
  · cases h1 : alookup i st2.instanceToMirror with
    | none => simp [unregister, h1]
    | some mid =>
      cases h2 : alookup i st2.instanceToCallback with
      | none => simp [unregister, h1, h2]
      | some cb2 =>
        simp only [unregister, h1, h2]
        have : alookup i (detachInstance i mid cb2 st2).instanceToMirror = none := by
          simp [detachInstance]
        simp [this]

/-- Claim C8 (notification isolation): whenever a mutation target resolves
(`findMirrorElement`) to mirror `X`, the dispatched invocations are exactly
the callbacks in `X`'s observer set, each with the payload computed for `X`;
consequently a callback registered only against another mirror `Y` (in `Y`'s
set but not in `X`'s) is never invoked. -/
theorem c8_notification_isolation (st : MState) (ci : Nat) (path : List Nat)
    (X : String) (kidsX : DomForest)
    (h : findMirrorElement st.container ci path = some (X, kidsX)) :
    (dispatchChange st ci path).map Prod.fst = (alookup X st.observers).getD [] ∧
    (∀ Y cb sY, alookup Y st.observers = some sY → cb ∈ sY →
      cb ∉ (alookup X st.observers).getD [] →
      ∀ payload, (cb, payload) ∉ dispatchChange st ci path) := by
  have hmain : (dispatchChange st ci path).map Prod.fst
      = (alookup X st.observers).getD [] := by
    simp only [dispatchChange, h]
    cases ho : alookup X st.observers with
    | none => simp
    | some s =>
      cases he : alookup X st.idToEntry with
      | none => simp [Function.comp_def]
      | some e => by_cases hm : e.mode = .html <;> simp [hm, Function.comp_def]
  refine ⟨hmain, ?_⟩
  intro Y cb sY hY hmem hnot payload hin
  exact hnot (hmain ▸ List.mem_map_of_mem Prod.fst hin)

/-- A concrete one-mirror state used to instantiate `c8_notification_isolation`. -/
def c8st : MState :=
  (register (fun _ => .nil) "hello" 5 (some .text) initState).2

theorem c8_notification_isolation_witness :
    (dispatchChange c8st 0 []).map Prod.fst
      = (alookup (mkMirrorId 0) c8st.observers).getD [] ∧
    (∀ Y cb sY, alookup Y c8st.observers = some sY → cb ∈ sY →
      cb ∉ (alookup (mkMirrorId 0) c8st.observers).getD [] →
      ∀ payload, (cb, payload) ∉ dispatchChange c8st 0 []) :=
  c8_notification_isolation c8st 0 [] (mkMirrorId 0) (.cons (.text "hello") .nil) rfl

/-- Claim C5 (sole-owner update): registering `v1` once and updating to a
fresh `v2` keeps the same mirror node object (`nodeId` unchanged — the node
is mutated in place, not removed and recreated) with the same mirror id; the
dedup table afterwards has no entry under `v1`'s key and maps `v2`'s key to
the same mirror id, whose entry still has `count = 1`. -/
theorem c5_sole_owner_update (parseHtml : String → DomForest) (v1 v2 : String)
    (cb : Nat) (m : TranslateMode) (hne : v1 ≠ v2) :
    let r1 := register parseHtml v1 cb (some m) initState
    let st2 := updateValue parseHtml r1.1 v2 r1.2
    (∃ nd nd2, r1.2.container = [nd] ∧ st2.container = [nd2] ∧
      nd2.nodeId = nd.nodeId ∧ nd2.mirrorId = nd.mirrorId ∧ nd.mirrorId = mkMirrorId 0) ∧
    alookup (getValueKey m v1) st2.valueToMirror = none ∧
    (∃ e, alookup (getValueKey m v2) st2.valueToMirror = some (mkMirrorId 0) ∧
      alookup (mkMirrorId 0) st2.idToEntry = some e ∧ e.count = 1 ∧ e.value = v2) := by
  intro r1 st2
  have hkey : getValueKey m v1 ≠ getValueKey m v2 := getValueKey_ne_of_ne hne
  cases m with
  | text =>
    simp [r1, st2, register, initState, getTranslateMode_some, updateValue,
      renderEntry, hkey, hne, findChild, replaceChildKids,
      innerTextF, innerTextN, aerase, aset, alookup, List.filter]
    exact fun hc => hkey hc.symm
  | html =>
    simp [r1, st2, register, initState, getTranslateMode_some, updateValue,
      renderEntry, hkey, hne, findChild, replaceChildKids,
      innerTextF, innerTextN, aerase, aset, alookup, List.filter]
    exact fun hc => hkey hc.symm

theorem c5_sole_owner_update_witness :
    ("a" : String) ≠ "b" ∧
    (let r1 := register (fun _ => .nil) "a" 0 (some .text) initState
     let st2 := updateValue (fun _ => .nil) r1.1 "b" r1.2
     (∃ nd nd2, r1.2.container = [nd] ∧ st2.container = [nd2] ∧
       nd2.nodeId = nd.nodeId ∧ nd2.mirrorId = nd.mirrorId ∧ nd.mirrorId = mkMirrorId 0) ∧
     alookup (getValueKey .text "a") st2.valueToMirror = none ∧
     (∃ e, alookup (getValueKey .text "b") st2.valueToMirror = some (mkMirrorId 0) ∧
       alookup (mkMirrorId 0) st2.idToEntry = some e ∧ e.count = 1 ∧ e.value = "b")) :=
  ⟨by decide, c5_sole_owner_update (fun _ => .nil) "a" "b" 0 .text (by decide)⟩

/-- Claim C6 (shared update forks): with instances A and B sharing the entry
for `v1` (`count = 2`) and distinct callbacks, `updateValue(A, v2)` for a
fresh `v2` attaches A to a brand-new entry and node for `v2` (`count = 1`),
while B's entry for `v1` keeps its mirror id, its node is untouched (the
container still holds the identical node object first), its `count` drops to
1, and A and B share no entry, no node, and no callback-set membership
(B's set is exactly `[cbB]`, A's new set exactly `[cbA]`). -/
theorem c6_shared_update_forks (parseHtml : String → DomForest) (v1 v2 : String)
    (cbA cbB : Nat) (m : TranslateMode) (hne : v1 ≠ v2) (hcb : cbA ≠ cbB) :
    let rA := register parseHtml v1 cbA (some m) initState
    let rB := register parseHtml v1 cbB (some m) rA.2
    let st3 := updateValue parseHtml rA.1 v2 rB.2
    alookup rA.1 st3.instanceToMirror = some (mkMirrorId 3) ∧
    (∃ e2, alookup (mkMirrorId 3) st3.idToEntry = some e2 ∧ e2.count = 1 ∧ e2.value = v2) ∧
    alookup (getValueKey m v2) st3.valueToMirror = some (mkMirrorId 3) ∧
    alookup rB.1 st3.instanceToMirror = some (mkMirrorId 0) ∧
    (∃ e1, alookup (mkMirrorId 0) st3.idToEntry = some e1 ∧ e1.count = 1 ∧ e1.value = v1) ∧
    (∃ nd ndB, rB.2.container = [nd] ∧ st3.container = [nd, ndB] ∧
      ndB.mirrorId = mkMirrorId 3) ∧
    mkMirrorId 0 ≠ mkMirrorId 3 ∧
    alookup (mkMirrorId 0) st3.observers = some [cbB] ∧
    alookup (mkMirrorId 3) st3.observers = some [cbA] := by
  intro rA rB st3
  have hkey : getValueKey m v1 ≠ getValueKey m v2 := getValueKey_ne_of_ne hne
  have hi12 : mkInstanceId 1 ≠ mkInstanceId 2 := by decide
  have hm03 : mkMirrorId 0 ≠ mkMirrorId 3 := by decide
  cases m with
  | text =>
    simp [rA, rB, st3, register, initState, getTranslateMode_some, updateValue,
      updateFork, detachInstance, renderEntry, hkey, hne, hcb, Ne.symm hcb,
      hi12, Ne.symm hi12, hm03, Ne.symm hm03, setAdd, List.erase,
      findChild, replaceChildKids, removeChild, aerase, aset, alookup, List.filter]
  | html =>
    simp [rA, rB, st3, register, initState, getTranslateMode_some, updateValue,
      updateFork, detachInstance, renderEntry, hkey, hne, hcb, Ne.symm hcb,
      hi12, Ne.symm hi12, hm03, Ne.symm hm03, setAdd, List.erase,
      findChild, replaceChildKids, removeChild, aerase, aset, alookup, List.filter]

theorem c6_shared_update_forks_witness :
    ("a" : String) ≠ "b" ∧ (0 : Nat) ≠ 1 ∧
    (let rA := register (fun _ => .nil) "a" 0 (some .text) initState
     let rB := register (fun _ => .nil) "a" 1 (some .text) rA.2
     let st3 := updateValue (fun _ => .nil) rA.1 "b" rB.2
     alookup rA.1 st3.instanceToMirror = some (mkMirrorId 3) ∧
     (∃ e2, alookup (mkMirrorId 3) st3.idToEntry = some e2 ∧ e2.count = 1 ∧ e2.value = "b") ∧
     alookup (getValueKey .text "b") st3.valueToMirror = some (mkMirrorId 3) ∧
     alookup rB.1 st3.instanceToMirror = some (mkMirrorId 0) ∧
     (∃ e1, alookup (mkMirrorId 0) st3.idToEntry = some e1 ∧ e1.count = 1 ∧ e1.value = "a") ∧
     (∃ nd ndB, rB.2.container = [nd] ∧ st3.container = [nd, ndB] ∧
       ndB.mirrorId = mkMirrorId 3) ∧
     mkMirrorId 0 ≠ mkMirrorId 3 ∧
     alookup (mkMirrorId 0) st3.observers = some [1] ∧
     alookup (mkMirrorId 3) st3.observers = some [0]) :=
  ⟨by decide, by decide,
    c6_shared_update_forks (fun _ => .nil) "a" "b" 0 1 .text (by decide) (by decide)⟩

/-- The browser parse of `<b>Hello</b> world` (the `body` child forest):
a `<b>` element containing the text leaf `Hello`, followed by the text leaf
`" world"` (the whitespace between `</b>` and `world` belongs to that
leaf). -/
def c1Forest : DomForest :=
  .cons (.elem "B" [] (.cons (.text "Hello") .nil)) (.cons (.text " world") .nil)

/-- The mirror node's children after the external mechanism rewrites the text
of leaf wrapper 0 to `Bonjour` and of leaf wrapper 1 to `monde`. -/
def c1Translated : DomForest :=
  .cons (.elem "B" []
      (.cons (.elem "SPAN" [("data-stb-text-id", "0")] (.cons (.text "Bonjour") .nil)) .nil))
    (.cons (.elem "SPAN" [("data-stb-text-id", "1")] (.cons (.text "monde") .nil)) .nil)

/-- The manager state after registering `<b>Hello</b> world` in markup mode
and after the external rewrite of the two leaf wrappers (the node object and
its mirror id are unchanged; only the wrapper texts differ). -/
def c1State (parseHtml : String → DomForest) (cb : Nat) : MState :=
  let r := register parseHtml "<b>Hello</b> world" cb (some .html) initState
  { r.2 with container := [⟨0, mkMirrorId 0, c1Translated⟩] }

/-- Claim C1, amended (markup round-trip): registering `<b>Hello</b> world`
in markup mode stores the extraction template
`<b>__STB_TEXT_0__</b>__STB_TEXT_1__`, and after the external mechanism
rewrites leaf 0 to `Bonjour` and leaf 1 to `monde`, the mutation dispatch
delivers to every callback of that mirror the template with each leaf
replaced by its HTML-escaped rewritten text, namely `<b>Bonjour</b>monde`
(structure preserved, text replaced; the whitespace of the original leaf
`" world"` was part of the replaced leaf text, so it is not reproduced —
the claim's expected `<b>Bonjour</b> monde` is not what the code yields). -/
theorem c1_markup_roundtrip (parseHtml : String → DomForest) (cb : Nat)
    (hp : parseHtml "<b>Hello</b> world" = c1Forest) :
    (alookup (mkMirrorId 0) (c1State parseHtml cb).idToEntry).bind MirrorEntry.template
      = some "<b>__STB_TEXT_0__</b>__STB_TEXT_1__" ∧
    dispatchChange (c1State parseHtml cb) 0 [0, 0, 0] = [(cb, "<b>Bonjour</b>monde")] := by
  have hs : c1State parseHtml cb = c1State (fun _ => c1Forest) cb := by
    simp only [c1State, register, renderEntry, buildHtmlMirror, hp, getTranslateMode_some]
  rw [hs]
  exact ⟨rfl, rfl⟩

theorem c1_markup_roundtrip_witness :
    (fun _ => c1Forest : String → DomForest) "<b>Hello</b> world" = c1Forest ∧
    ((alookup (mkMirrorId 0) (c1State (fun _ => c1Forest) 7).idToEntry).bind
        MirrorEntry.template = some "<b>__STB_TEXT_0__</b>__STB_TEXT_1__" ∧
      dispatchChange (c1State (fun _ => c1Forest) 7) 0 [0, 0, 0]
        = [(7, "<b>Bonjour</b>monde")]) :=
  ⟨rfl, c1_markup_roundtrip (fun _ => c1Forest) 7 rfl⟩

/-- Claim C1, counterexample: in the exact scenario of the claim (value
`<b>Hello</b> world` registered in markup mode, mirror leaves rewritten to
`Bonjour` and `monde`), the value delivered to the callback is
`<b>Bonjour</b>monde`, which differs from the claim's asserted
`<b>Bonjour</b> monde`. -/
theorem c1_markup_roundtrip_counterexample :
    dispatchChange (c1State (fun _ => c1Forest) 5) 0 [0, 0, 0]
      = [(5, "<b>Bonjour</b>monde")] ∧
    "<b>Bonjour</b>monde" ≠ "<b>Bonjour</b> monde" := by
  constructor
  · decide
  · decide

/-! ### The translated-text array of `buildTranslatedHtml`, characterized -/

/-- One wrapper's contribution to the dense translated-text array. -/
def translatedStep (acc : List String) (w : String × String) : List String :=
  match jsIndex w.1 with
  | some k => setGrow acc k w.2
  | none => acc

theorem collectTranslated_eq_foldl (ws : List (String × String)) (count : Nat) :
    collectTranslated ws count = ws.foldl translatedStep (List.replicate count "") := rfl

/-- The text of the leaf wrapper whose identity attribute coerces to `i`
(the first such wrapper; under the uniqueness hypothesis of C7 it is the
only one), empty when no such wrapper is present. -/
def wrapperTextFor (ws : List (String × String)) (i : Nat) : String :=
  match ws.find? (fun w => jsIndex w.1 == some i) with
  | some w => w.2
  | none => ""

theorem build_characterize (ws : List (String × String)) (acc : List String)
    (hin : ∀ w ∈ ws, ∃ k, k < acc.length ∧ jsIndex w.1 = some k)
    (hnd : (ws.map (fun w => jsIndex w.1)).Nodup) :
    (ws.foldl translatedStep acc).length = acc.length ∧
    ∀ i, (ws.foldl translatedStep acc).getD i "" =
      (match ws.find? (fun w => jsIndex w.1 == some i) with
       | some w => w.2
       | none => acc.getD i "") := by
  induction ws generalizing acc with
  | nil => exact ⟨rfl, fun i => rfl⟩
  | cons w rest ih =>
    obtain ⟨k, hk, hjk⟩ := hin w (List.mem_cons_self w rest)
    have hstep : translatedStep acc w = acc.set k w.2 := by
      simp [translatedStep, hjk, setGrow, hk]
    have hlen : (acc.set k w.2).length = acc.length := by simp
    have hin2 : ∀ w2 ∈ rest, ∃ k2, k2 < (acc.set k w.2).length ∧ jsIndex w2.1 = some k2 := by
      intro w2 hw2
      obtain ⟨k2, hk2, hj2⟩ := hin w2 (List.mem_cons_of_mem w hw2)
      exact ⟨k2, by simpa [hlen] using hk2, hj2⟩
    have hnd2 : (rest.map (fun w => jsIndex w.1)).Nodup := (List.nodup_cons.mp hnd).2
    have hnotin : jsIndex w.1 ∉ rest.map (fun w => jsIndex w.1) := (List.nodup_cons.mp hnd).1
    obtain ⟨ihlen, ihget⟩ := ih (acc.set k w.2) hin2 hnd2
    constructor
    · simpa [List.foldl_cons, hstep, hlen] using ihlen
    · intro i
      rw [List.foldl_cons, hstep]
      rw [ihget i]
      by_cases hi : k = i
      · subst hi
        have hfw : (fun w2 => jsIndex w2.1 == some k) w = true := by simp [hjk]
        have hfr : rest.find? (fun w2 => jsIndex w2.1 == some k) = none := by
          rw [List.find?_eq_none]
          intro w2 hw2
          simp only [beq_iff_eq]
          intro hj2
          exact hnotin
            (by simpa [hjk, hj2] using List.mem_map_of_mem (fun w => jsIndex w.1) hw2)
        simp [List.find?, hfw, hfr, List.getD, List.getElem?_set_self, hk]
      · have hfw : (fun w2 => jsIndex w2.1 == some i) w = false := by
          simp [hjk, hi]
        cases hfr : rest.find? (fun w2 => jsIndex w2.1 == some i) with
        | some w2 => simp [List.find?, hfw, hfr]
        | none =>
          simp [List.find?, hfw, hfr, List.getD, List.getElem?_set_ne hi]

theorem foldl_congr_mem {α β : Type} (l : List β) (f g : α → β → α) :
    ∀ (init : α), (∀ b ∈ l, ∀ a, f a b = g a b) →
      l.foldl f init = l.foldl g init := by
  induction l with
  | nil => intro init h; rfl
  | cons b rest ih =>
    intro init h
    rw [List.foldl_cons, List.foldl_cons, h b (List.mem_cons_self b rest)]
    exact ih _ (fun b2 hb2 a => h b2 (List.mem_cons_of_mem b hb2) a)

/-- C7's specified reconstruction, modelled on the claim's words: the
extraction template with each placeholder token `i` (for `0 ≤ i < n`, in
increasing `i`) replaced by the HTML-escaped current text of the leaf
wrapper whose identity attribute is `i`, and by the empty string when no
wrapper with identity `i` is present. -/
def specMarkupReconstruction (t : String) (n : Nat) (ws : List (String × String)) : String :=
  (List.range n).foldl (fun r i => replaceAll r (ph i) (escapeHtml (wrapperTextFor ws i))) t

/-- Claim C7 (markup reconstruction postcondition): for a markup entry with
non-empty template `t` and `leafCount = n`, when every wrapper present in the
mirror has an identity that is a numeral `k < n` and those identities are
pairwise distinct, the value `buildTranslatedHtml` delivers is exactly the
specified reconstruction: the template with each placeholder `i < n`
replaced by the HTML-escaped text of the wrapper with identity `i`, empty
string for missing wrappers.  (An empty template string falls back to the
element's `innerText` in the source — `!entry.template` is truthy for `""` —
hence the `t ≠ ""` hypothesis; out-of-range identities are C10's subject.) -/
theorem c7_markup_reconstruction (kids : DomForest) (e : MirrorEntry) (t : String)
    (n : Nat) (ht : e.template = some t) (ht0 : t ≠ "") (hn : e.textCount = some n)
    (hin : ∀ w ∈ wrappersF kids, ∃ k, k < n ∧ jsIndex w.1 = some k)
    (hnd : ((wrappersF kids).map (fun w => jsIndex w.1)).Nodup) :
    buildTranslatedHtml kids e = specMarkupReconstruction t n (wrappersF kids) := by
  obtain ⟨hlen, hget⟩ := build_characterize (wrappersF kids) (List.replicate n "")
      (by simpa using hin) hnd
  have hget2 : ∀ i, (collectTranslated (wrappersF kids) n).getD i ""
      = wrapperTextFor (wrappersF kids) i := by
    intro i
    rw [collectTranslated_eq_foldl, hget i, wrapperTextFor]
    cases (wrappersF kids).find? (fun w => jsIndex w.1 == some i) with
    | none => simp [List.getD]
    | some w => rfl
  simp only [buildTranslatedHtml, ht, ht0, if_neg ht0, hn, Option.getD]
  unfold buildTranslatedCore substLoop specMarkupReconstruction
  rw [collectTranslated_eq_foldl, hlen, List.length_replicate]
  apply foldl_congr_mem _ _ _ _
  intro i _ r
  rw [← collectTranslated_eq_foldl, hget2 i]

/-- A concrete one-wrapper mirror used to instantiate C7's theorem. -/
def c7Kids : DomForest :=
  .cons (.elem "SPAN" [("data-stb-text-id", "0")] (.cons (.text "Bonjour") .nil)) .nil

def c7Entry : MirrorEntry :=
  { id := "m", value := "v", count := 1, mode := .html,
    template := some "<b>__STB_TEXT_0__</b>", textCount := some 1 }

theorem c7_markup_reconstruction_witness :
    c7Entry.template = some "<b>__STB_TEXT_0__</b>" ∧
    ("<b>__STB_TEXT_0__</b>" : String) ≠ "" ∧
    c7Entry.textCount = some 1 ∧
    (∀ w ∈ wrappersF c7Kids, ∃ k, k < 1 ∧ jsIndex w.1 = some k) ∧
    ((wrappersF c7Kids).map (fun w => jsIndex w.1)).Nodup ∧
    buildTranslatedHtml c7Kids c7Entry
      = specMarkupReconstruction "<b>__STB_TEXT_0__</b>" 1 (wrappersF c7Kids) := by
  have hin : ∀ w ∈ wrappersF c7Kids, ∃ k, k < 1 ∧ jsIndex w.1 = some k := by
    intro w hw
    have hw2 : w = ("0", "Bonjour" ++ "") := by
      simpa [c7Kids, wrappersN, wrappersF, getAttr, alookup,
        innerTextF, innerTextN] using hw
    subst hw2
    exact ⟨0, by decide, by decide⟩
  refine ⟨rfl, by decide, rfl, hin, by decide, ?_⟩
  exact c7_markup_reconstruction c7Kids c7Entry _ 1 rfl (by decide) rfl hin (by decide)

/-! ### C10: out-of-range, negative and non-numeric wrapper identities

Which array index (if any) `Number(attr)` followed by
`translatedTextList[id] = ...` stores at is decided by the host's IEEE-754
`Number` primitive (whitespace, sign, hex, exponent, fraction and rounding
rules included).  As with `DOMParser` (the `parseHtml` parameter), that
primitive is external to the program's own logic, so the development below
is parametric in the coercion `toIndex : String → Option Nat` — `some k`
when the write lands at array index `k`, `none` when the wrapper is a no-op
for the dense array (NaN skipped, or a negative / non-integral /
beyond-array-range number stored at a non-index property the loop never
reads).  The C10 theorem is proved for every `toIndex`, hence instantiates
to the true JS semantics whatever integral value each numeral ("1.0",
"1e2", "0x10", padded forms, ...) denotes; `toIndex := jsIndex` recovers
the executable pipeline definitionally (last conjunct of the theorem). -/

/-- The store `translatedTextList[id] = text` for one wrapper, relative to
an identity-to-index coercion `toIndex`. -/
def translatedStepP (toIndex : String → Option Nat) (acc : List String)
    (w : String × String) : List String :=
  match toIndex w.1 with
  | some k => setGrow acc k w.2
  | none => acc

/-- `collectTranslated`, relative to a coercion `toIndex`. -/
def collectTranslatedP (toIndex : String → Option Nat) (ws : List (String × String))
    (count : Nat) : List String :=
  ws.foldl (translatedStepP toIndex) (List.replicate count "")

/-- `buildTranslatedCore`, relative to a coercion `toIndex`; at
`toIndex := jsIndex` it is definitionally the pipeline's
`buildTranslatedCore`. -/
def buildTranslatedCoreP (toIndex : String → Option Nat) (template : String)
    (count : Nat) (ws : List (String × String)) : String :=
  substLoop template (collectTranslatedP toIndex ws count)

theorem collectTranslatedP_eq_foldl (toIndex : String → Option Nat)
    (ws : List (String × String)) (count : Nat) :
    collectTranslatedP toIndex ws count
      = ws.foldl (translatedStepP toIndex) (List.replicate count "") := rfl

/-- Wrappers whose identity coerces to an in-range array index. -/
def inRangePB (toIndex : String → Option Nat) (n : Nat) (w : String × String) : Bool :=
  match toIndex w.1 with
  | some k => k < n
  | none => false

/-- Wrappers whose identity coerces to an array-index write at all. -/
def numericPB (toIndex : String → Option Nat) (w : String × String) : Bool :=
  (toIndex w.1).isSome

theorem getD_eq_getElem? (l : List String) (i : Nat) : l.getD i "" = l[i]?.getD "" := by
  simp [List.getD, List.get?_eq_getElem?]

theorem setGrow_length_ge (l : List String) (k : Nat) (v : String) :
    l.length ≤ (setGrow l k v).length := by
  unfold setGrow
  by_cases h : k < l.length
  · simp [h]
  · simp only [h, if_false, List.length_append]
    omega

theorem setGrow_length_lt (l : List String) (k : Nat) (v : String) (h : k < l.length) :
    (setGrow l k v).length = l.length := by
  simp [setGrow, h]

theorem setGrow_getD_ne (l : List String) (k : Nat) (v : String) (i : Nat)
    (hik : i ≠ k) : (setGrow l k v).getD i "" = l.getD i "" := by
  rw [getD_eq_getElem?, getD_eq_getElem?]
  unfold setGrow
  by_cases h : k < l.length
  · simp [h, List.getElem?_set_ne (Ne.symm hik)]
  · simp only [h, if_false]
    by_cases hi : i < l.length
    · rw [List.append_assoc, List.getElem?_append_left hi]
    · rw [List.getElem?_eq_none (by omega : l.length ≤ i)]
      rw [List.append_assoc, List.getElem?_append_right (by omega : l.length ≤ i)]
      by_cases hrep : i - l.length < k - l.length
      · rw [List.getElem?_append_left (by simpa using hrep)]
        simp [List.getElem?_replicate, hrep]
      · by_cases hend : i - l.length < (List.replicate (k - l.length) "" ++ [v]).length
        · exfalso
          simp only [List.length_append, List.length_replicate,
            List.length_singleton] at hend
          omega
        · rw [List.getElem?_eq_none (by
            simp only [List.length_append, List.length_replicate,
              List.length_singleton] at hend ⊢
            omega)]

theorem setGrow_getD_eq (l : List String) (k : Nat) (v : String) :
    (setGrow l k v).getD k "" = v := by
  rw [getD_eq_getElem?]
  unfold setGrow
  by_cases h : k < l.length
  · simp [List.getElem?_set_self, h]
  · simp only [h, if_false]
    rw [List.append_assoc, List.getElem?_append_right (by omega : l.length ≤ k),
      List.getElem?_append_right (by simp)]
    simp

/-- Skipped wrappers (no array-index write) never touch the array, for
every coercion. -/
theorem collectTranslatedP_numeric (toIndex : String → Option Nat)
    (ws : List (String × String)) (n : Nat) :
    collectTranslatedP toIndex ws n
      = collectTranslatedP toIndex (ws.filter (numericPB toIndex)) n := by
  rw [collectTranslatedP_eq_foldl, collectTranslatedP_eq_foldl]
  generalize List.replicate n "" = acc
  induction ws generalizing acc with
  | nil => rfl
  | cons w rest ih =>
    cases hj : toIndex w.1 with
    | none =>
      have hnum : numericPB toIndex w = false := by simp [numericPB, hj]
      have hstep : translatedStepP toIndex acc w = acc := by simp [translatedStepP, hj]
      simp only [List.foldl_cons, List.filter_cons, hnum, if_false, hstep]
      exact ih acc
    | some k =>
      have hnum : numericPB toIndex w = true := by simp [numericPB, hj]
      simp only [List.foldl_cons, List.filter_cons, hnum, if_true]
      exact ih _

theorem c10_collectP_agree (toIndex : String → Option Nat) (n : Nat)
    (ws : List (String × String)) :
    ∀ (acc accF : List String), accF.length = n → n ≤ acc.length →
      (∀ i, i < n → acc.getD i "" = accF.getD i "") →
      n ≤ (ws.foldl (translatedStepP toIndex) acc).length ∧
      ((ws.filter (inRangePB toIndex n)).foldl (translatedStepP toIndex) accF).length
          = n ∧
      (∀ i, i < n → (ws.foldl (translatedStepP toIndex) acc).getD i ""
          = ((ws.filter (inRangePB toIndex n)).foldl
              (translatedStepP toIndex) accF).getD i "") := by
  induction ws with
  | nil => exact fun acc accF h1 h2 h3 => ⟨h2, h1, h3⟩
  | cons w rest ih =>
    intro acc accF h1 h2 h3
    cases hj : toIndex w.1 with
    | none =>
      have hf : inRangePB toIndex n w = false := by simp [inRangePB, hj]
      have hstep : translatedStepP toIndex acc w = acc := by simp [translatedStepP, hj]
      simp only [List.foldl_cons, List.filter_cons, hf, if_false, hstep]
      exact ih acc accF h1 h2 h3
    | some k =>
      have hstep : translatedStepP toIndex acc w = setGrow acc k w.2 := by
        simp [translatedStepP, hj]
      by_cases hk : k < n
      · have hf : inRangePB toIndex n w = true := by simp [inRangePB, hj, hk]
        have hstepF : translatedStepP toIndex accF w = setGrow accF k w.2 := by
          simp [translatedStepP, hj]
        simp only [List.foldl_cons, List.filter_cons, hf, if_true, hstep, hstepF]
        refine ih (setGrow acc k w.2) (setGrow accF k w.2) ?_ ?_ ?_
        · rw [setGrow_length_lt accF k w.2 (by omega), h1]
        · calc n ≤ acc.length := h2
            _ ≤ (setGrow acc k w.2).length := setGrow_length_ge acc k w.2
        · intro i hi
          by_cases hik : i = k
          · subst hik
            rw [setGrow_getD_eq, setGrow_getD_eq]
          · rw [setGrow_getD_ne acc k w.2 i hik, setGrow_getD_ne accF k w.2 i hik]
            exact h3 i hi
      · have hf : inRangePB toIndex n w = false := by simp [inRangePB, hj, hk]
        simp only [List.foldl_cons, List.filter_cons, hf, if_false, hstep]
        refine ih (setGrow acc k w.2) accF h1 ?_ ?_
        · calc n ≤ acc.length := h2
            _ ≤ (setGrow acc k w.2).length := setGrow_length_ge acc k w.2
        · intro i hi
          rw [setGrow_getD_ne acc k w.2 i (by omega)]
          exact h3 i hi

theorem foldl_replace_no_occur (l : List Nat) (x : Nat → String) :
    ∀ (R : String), (∀ i ∈ l, ¬occursIn (ph i).data R.data) →
      l.foldl (fun r i => replaceAll r (ph i) (x i)) R = R := by
  induction l with
  | nil => intro R h; rfl
  | cons i rest ih =>
    intro R h
    rw [List.foldl_cons,
      replaceAll_of_not_occursIn R (ph i) (x i) (h i (List.mem_cons_self i rest))]
    exact ih R (fun j hj => h j (List.mem_cons_of_mem i hj))

/-- Claim C10, amended (wrapper identity tolerance), stated for EVERY
identity-to-index coercion `toIndex` — in particular for the exact JS
semantics of `Number()` plus the property-write rules, under which `"1.0"`,
`"1e2"` and `"0x10"` denote the real indices 1, 100 and 16 while NaN is
skipped and negative, non-integral or beyond-array-range numbers store
non-index properties the loop never reads: reconstruction is total (no
wrapper can fault it); wrappers that perform no index write never change
the output; and wrappers whose identity coerces to an index `≥ leafCount`
leave the output identical to what the in-range wrappers alone produce
*provided* no placeholder token of index `≥ leafCount` occurs as a
substring of the in-range result — the extra loop iterations they cause
substitute exactly those tokens, which can occur literally in the template
(e.g. in an attribute value), as the counterexample shows.  The last
conjunct ties the parametric definition to the pipeline: at
`toIndex := jsIndex` it is `buildTranslatedCore` definitionally. -/
theorem c10_wrapper_tolerance (toIndex : String → Option Nat) (t : String)
    (n : Nat) (ws : List (String × String))
    (hocc : ∀ j, n ≤ j → ¬occursIn (ph j).data
      (buildTranslatedCoreP toIndex t n (ws.filter (inRangePB toIndex n))).data) :
    buildTranslatedCoreP toIndex t n (ws.filter (numericPB toIndex))
        = buildTranslatedCoreP toIndex t n ws ∧
    buildTranslatedCoreP toIndex t n ws
        = buildTranslatedCoreP toIndex t n (ws.filter (inRangePB toIndex n)) ∧
    buildTranslatedCoreP jsIndex t n ws = buildTranslatedCore t n ws := by
  have hnum : buildTranslatedCoreP toIndex t n (ws.filter (numericPB toIndex))
      = buildTranslatedCoreP toIndex t n ws := by
    unfold buildTranslatedCoreP substLoop
    rw [← collectTranslatedP_numeric]
  refine ⟨hnum, ?_, rfl⟩
  obtain ⟨hL, hLF, hagree⟩ := c10_collectP_agree toIndex n ws (List.replicate n "")
    (List.replicate n "") (by simp) (by simp) (fun i hi => rfl)
  rw [← collectTranslatedP_eq_foldl] at hL hagree
  rw [← collectTranslatedP_eq_foldl] at hLF hagree
  unfold buildTranslatedCoreP substLoop
  rw [hLF]
  have hsplit : (collectTranslatedP toIndex ws n).length
      = n + ((collectTranslatedP toIndex ws n).length - n) := by omega
  rw [hsplit, List.range_add, List.foldl_append]
  have hfirst : (List.range n).foldl
        (fun r i => replaceAll r (ph i)
          (escapeHtml ((collectTranslatedP toIndex ws n).getD i ""))) t
      = (List.range n).foldl
        (fun r i => replaceAll r (ph i)
          (escapeHtml ((collectTranslatedP toIndex
            (ws.filter (inRangePB toIndex n)) n).getD i ""))) t := by
    apply foldl_congr_mem _ _ _ _
    intro i hi r
    rw [hagree i (List.mem_range.mp hi)]
  rw [hfirst]
  apply foldl_replace_no_occur
  intro i hi
  simp only [List.mem_map, List.mem_range] at hi
  obtain ⟨j, _, rfl⟩ := hi
  have hRF : buildTranslatedCoreP toIndex t n (ws.filter (inRangePB toIndex n))
      = (List.range n).foldl (fun r i => replaceAll r (ph i)
          (escapeHtml ((collectTranslatedP toIndex
            (ws.filter (inRangePB toIndex n)) n).getD i ""))) t := by
    unfold buildTranslatedCoreP substLoop
    rw [hLF]
  exact hRF ▸ hocc (n + j) (Nat.le_add_right n j)

/-- A coercion agreeing with `jsIndex` on decimal numerals and giving two
exotic numerals their JS `Number` values (`Number("1.0") = 1`,
`Number("0x10") = 16`), used to exercise the theorem on identities outside
`jsIndex`'s decimal domain. -/
def c10ToIndex (s : String) : Option Nat :=
  if s = "1.0" then some 1 else if s = "0x10" then some 16 else jsIndex s

theorem c10_wrapper_tolerance_witness :
    (∀ j, 2 ≤ j → ¬occursIn (ph j).data
      ((buildTranslatedCoreP c10ToIndex "<b>__STB_TEXT_0__</b><i>__STB_TEXT_1__</i>" 2
        ([("0", "X"), ("1.0", "Y"), ("abc", "N"), ("-1", "Z"), ("0x10", "W")].filter
          (inRangePB c10ToIndex 2))).data)) ∧
    (buildTranslatedCoreP c10ToIndex "<b>__STB_TEXT_0__</b><i>__STB_TEXT_1__</i>" 2
        ([("0", "X"), ("1.0", "Y"), ("abc", "N"), ("-1", "Z"), ("0x10", "W")].filter
          (numericPB c10ToIndex))
      = buildTranslatedCoreP c10ToIndex "<b>__STB_TEXT_0__</b><i>__STB_TEXT_1__</i>" 2
        [("0", "X"), ("1.0", "Y"), ("abc", "N"), ("-1", "Z"), ("0x10", "W")] ∧
    buildTranslatedCoreP c10ToIndex "<b>__STB_TEXT_0__</b><i>__STB_TEXT_1__</i>" 2
        [("0", "X"), ("1.0", "Y"), ("abc", "N"), ("-1", "Z"), ("0x10", "W")]
      = buildTranslatedCoreP c10ToIndex "<b>__STB_TEXT_0__</b><i>__STB_TEXT_1__</i>" 2
        ([("0", "X"), ("1.0", "Y"), ("abc", "N"), ("-1", "Z"), ("0x10", "W")].filter
          (inRangePB c10ToIndex 2)) ∧
    buildTranslatedCoreP jsIndex "<b>__STB_TEXT_0__</b><i>__STB_TEXT_1__</i>" 2
        [("0", "X"), ("1.0", "Y"), ("abc", "N"), ("-1", "Z"), ("0x10", "W")]
      = buildTranslatedCore "<b>__STB_TEXT_0__</b><i>__STB_TEXT_1__</i>" 2
        [("0", "X"), ("1.0", "Y"), ("abc", "N"), ("-1", "Z"), ("0x10", "W")]) := by
  have hocc : ∀ j, 2 ≤ j → ¬occursIn (ph j).data
      ((buildTranslatedCoreP c10ToIndex "<b>__STB_TEXT_0__</b><i>__STB_TEXT_1__</i>" 2
        ([("0", "X"), ("1.0", "Y"), ("abc", "N"), ("-1", "Z"), ("0x10", "W")].filter
          (inRangePB c10ToIndex 2))).data) := by
    intro j hj hoc
    have hsplit : (ph j).data = ("__STB_TEXT_" : String).data
        ++ ((Nat.repr j).data ++ ("__" : String).data) := by
      simp [ph, HTML_TEXT_PLACEHOLDER_PREFIX, HTML_TEXT_PLACEHOLDER_SUFFIX,
        String.data_append]
    rw [hsplit] at hoc
    have h1 := occursIn_of_append _ _ _ hoc
    revert h1
    decide
  exact ⟨hocc, c10_wrapper_tolerance c10ToIndex
    "<b>__STB_TEXT_0__</b><i>__STB_TEXT_1__</i>" 2 _ hocc⟩

/-- The markup value whose template literally contains the placeholder token
`__STB_TEXT_1__` inside an attribute value. -/
def c10Value : String := "<div title=\"__STB_TEXT_1__\">Hello</div>"

/-- The browser parse of `c10Value` (body children). -/
def c10Forest : DomForest :=
  .cons (.elem "DIV" [("title", "__STB_TEXT_1__")] (.cons (.text "Hello") .nil)) .nil

/-- The markup entry `register` builds for `c10Value` (one leaf, template
keeping the attribute text verbatim). -/
def c10Entry : MirrorEntry :=
  { id := "m", value := c10Value, count := 1, mode := .html,
    template := some (buildHtmlMirror (fun _ => c10Forest) c10Value).template,
    textCount := some (buildHtmlMirror (fun _ => c10Forest) c10Value).textCount }

/-- The mirror children as rendered (`leafCount = 1`, wrapper id 0). -/
def c10KidsIn : DomForest := (buildHtmlMirror (fun _ => c10Forest) c10Value).mirrorForest

/-- The same mirror with an extra wrapper whose identity `1` is
`≥ leafCount`. -/
def c10KidsOut : DomForest :=
  .cons (.elem "DIV" [("title", "__STB_TEXT_1__")]
      (.cons (.elem "SPAN" [("data-stb-text-id", "0")] (.cons (.text "Hello") .nil))
        (.cons (.elem "SPAN" [("data-stb-text-id", "1")] (.cons (.text "X") .nil)) .nil)))
    .nil

/-- Claim C10, counterexample: with the template
`<div title="__STB_TEXT_1__">__STB_TEXT_0__</div>` (leafCount 1), a leaf
wrapper with identity `1 ≥ leafCount` *does* change the delivered output:
the extra substitution pass rewrites the literal `__STB_TEXT_1__` in the
attribute value, yielding `<div title="X">Hello</div>` instead of the
in-range result `<div title="__STB_TEXT_1__">Hello</div>`. -/
theorem c10_wrapper_counterexample :
    (buildHtmlMirror (fun _ => c10Forest) c10Value).template
      = "<div title=\"__STB_TEXT_1__\">__STB_TEXT_0__</div>" ∧
    (buildHtmlMirror (fun _ => c10Forest) c10Value).textCount = 1 ∧
    buildTranslatedHtml c10KidsIn c10Entry = "<div title=\"__STB_TEXT_1__\">Hello</div>" ∧
    buildTranslatedHtml c10KidsOut c10Entry = "<div title=\"X\">Hello</div>" ∧
    buildTranslatedHtml c10KidsOut c10Entry ≠ buildTranslatedHtml c10KidsIn c10Entry := by
  refine ⟨by decide, by decide, by decide, by decide, by decide⟩

/-! ### C3: refcount teardown -/

/-- `register` the same value repeatedly (one call per callback in the list),
returning the issued instance ids in order. -/

def registerMany (parseHtml : String → DomForest) (value : String)
    (options : Option TranslateMode) : List Nat → MState → List String × MState
  | [], st => ([], st)
  | cb :: rest, st =>
    let r := register parseHtml value cb options st
    let r2 := registerMany parseHtml value options rest r.2
    (r.1 :: r2.1, r2.2)

/-- `unregister` each id in order. -/
def unregisterMany (ids : List String) (st : MState) : MState :=
  ids.foldl (fun s i => unregister i s) st

/-- The manager state after `k ≥ 1` live registrations of `(m, v)` from a
fresh manager and any interleaved teardown: one dedup entry whose `count`
equals the number `ids.length` of live instances, one mirror node, and every
live instance resolving to it.  (The observer list may have been emptied by
same-callback collisions — C4's subject — which never affects the entry or
node lifecycle, so the shape only constrains its key.) -/
def c3Shape (v : String) (m : TranslateMode) (ids : List String) (st : MState) : Prop :=
  ids.Nodup ∧
  (∀ i ∈ ids, ∃ j, j < st.nextUuid ∧ i = mkInstanceId j) ∧
  (st.observers = [] ∨ ∃ s, st.observers = [(mkMirrorId 0, s)]) ∧
  st.valueToMirror = [(getValueKey m v, mkMirrorId 0)] ∧
  (∃ e, st.idToEntry = [(mkMirrorId 0, e)] ∧ e.id = mkMirrorId 0 ∧ e.value = v
    ∧ e.mode = m ∧ e.count = ids.length) ∧
  (∀ i ∈ ids, alookup i st.instanceToMirror = some (mkMirrorId 0)
    ∧ (∃ c, alookup i st.instanceToCallback = some c)) ∧
  (∃ nd, st.container = [nd] ∧ nd.mirrorId = mkMirrorId 0)

theorem register_first (parseHtml : String → DomForest) (v : String) (cb : Nat)
    (m : TranslateMode) :
    (register parseHtml v cb (some m) initState).1 = mkInstanceId 1 ∧
    (register parseHtml v cb (some m) initState).2.nextUuid = 2 ∧
    c3Shape v m [mkInstanceId 1] (register parseHtml v cb (some m) initState).2 := by
  have he : (register parseHtml v cb (some m) initState).2.idToEntry
      = [(mkMirrorId 0, (renderEntry parseHtml
          { id := mkMirrorId 0, value := v, count := 1, mode := m,
            template := none, textCount := none } v).1)] := by
    simp [register, initState, aset, getTranslateMode_some]
  have hc : (register parseHtml v cb (some m) initState).2.container
      = [{ nodeId := 0, mirrorId := mkMirrorId 0,
           kids := (renderEntry parseHtml
              { id := mkMirrorId 0, value := v, count := 1, mode := m,
                template := none, textCount := none } v).2 }] := by
    simp [register, initState, getTranslateMode_some]
  refine ⟨by simp [register, initState], by simp [register, initState], ?_⟩
  unfold c3Shape
  refine ⟨by simp, ?_, ?_, ?_, ?_, ?_, ?_⟩
  · intro i hi
    simp at hi
    exact ⟨1, by simp [register, initState], hi⟩
  · right
    exact ⟨[cb], by simp [register, initState, aset]⟩
  · simp [register, initState, aset, getTranslateMode_some]
  · exact ⟨_, he, by simp, by simp, by simp, by simp⟩
  · intro i hi
    simp at hi
    subst hi
    constructor
    · simp [register, initState, aset]
    · exact ⟨cb, by simp [register, initState, aset]⟩
  · exact ⟨_, hc, rfl⟩

theorem register_hit (parseHtml : String → DomForest) (v : String) (cb : Nat)
    (m : TranslateMode) (ids : List String) (st : MState)
    (h : c3Shape v m ids st) :
    (register parseHtml v cb (some m) st).1 = mkInstanceId st.nextUuid ∧
    (register parseHtml v cb (some m) st).2.nextUuid = st.nextUuid + 1 ∧
    c3Shape v m (ids ++ [mkInstanceId st.nextUuid])
      (register parseHtml v cb (some m) st).2 := by
  obtain ⟨hnd, hbound, hobs, hval, ⟨e, hie, heid, hev, hem, hec⟩, hinst, hcont⟩ := h
  have hfresh : ∀ i ∈ ids, i ≠ mkInstanceId st.nextUuid := by
    intro i hi hc
    obtain ⟨j, hj, rfl⟩ := hbound i hi
    exact absurd (mkInstanceId_inj hc) (by omega)
  have hkey : alookup (getValueKey m v) st.valueToMirror = some (mkMirrorId 0) := by
    rw [hval]
    simp
  refine ⟨by simp [register, hkey, getTranslateMode_some], by simp [register, hkey, getTranslateMode_some], ?_⟩
  unfold c3Shape
  refine ⟨?_, ?_, ?_, ?_, ?_, ?_, ?_⟩
  · rw [List.nodup_append]
    refine ⟨hnd, by simp, ?_⟩
    rw [List.disjoint_singleton]
    exact fun hmem => hfresh _ hmem rfl
  · intro i hi
    rw [List.mem_append] at hi
    have hnu : (register parseHtml v cb (some m) st).2.nextUuid = st.nextUuid + 1 := by
      simp [register, hkey, getTranslateMode_some]
    rcases hi with hi | hi
    · obtain ⟨j, hj, rfl⟩ := hbound i hi
      exact ⟨j, by omega, rfl⟩
    · simp at hi
      subst hi
      exact ⟨st.nextUuid, by omega, rfl⟩
  · rcases hobs with hobs | ⟨s, hobs⟩
    · left
      simp [register, hkey, hobs, getTranslateMode_some]
    · right
      exact ⟨setAdd s cb, by simp [register, hkey, hobs, hie, aset, getTranslateMode_some]⟩
  · simp [register, hkey, hval, getTranslateMode_some]
  · refine ⟨{ e with count := e.count + 1 }, ?_, by simp [heid], by simp [hev],
      by simp [hem], by simp [hec]⟩
    simp [register, hkey, hie, aset, getTranslateMode_some]
  · intro i hi
    rw [List.mem_append] at hi
    rcases hi with hi | hi
    · obtain ⟨him, c, hic⟩ := hinst i hi
      refine ⟨?_, ⟨c, ?_⟩⟩
      · rw [show (register parseHtml v cb (some m) st).2.instanceToMirror
            = aset (mkInstanceId st.nextUuid) (mkMirrorId 0) st.instanceToMirror from by
              simp [register, hkey, getTranslateMode_some]]
        rw [alookup_aset_ne _ _ (Ne.symm (hfresh i hi)), him]
      · rw [show (register parseHtml v cb (some m) st).2.instanceToCallback
            = aset (mkInstanceId st.nextUuid) cb st.instanceToCallback from by
              simp [register, hkey, getTranslateMode_some]]
        rw [alookup_aset_ne _ _ (Ne.symm (hfresh i hi)), hic]
    · simp at hi
      subst hi
      constructor
      · rw [show (register parseHtml v cb (some m) st).2.instanceToMirror
            = aset (mkInstanceId st.nextUuid) (mkMirrorId 0) st.instanceToMirror from by
              simp [register, hkey, getTranslateMode_some]]
        simp
      · exact ⟨cb, by
          rw [show (register parseHtml v cb (some m) st).2.instanceToCallback
              = aset (mkInstanceId st.nextUuid) cb st.instanceToCallback from by
                simp [register, hkey, getTranslateMode_some]]
          simp⟩
  · obtain ⟨nd, hc1, hc2⟩ := hcont
    exact ⟨nd, by simp [register, hkey, hc1, getTranslateMode_some], hc2⟩

theorem registerMany_from (parseHtml : String → DomForest) (v : String)
    (m : TranslateMode) (cbs : List Nat) :
    ∀ (ids : List String) (st : MState), c3Shape v m ids st →
      (registerMany parseHtml v (some m) cbs st).1.length = cbs.length ∧
      c3Shape v m (ids ++ (registerMany parseHtml v (some m) cbs st).1)
        (registerMany parseHtml v (some m) cbs st).2 := by
  induction cbs with
  | nil =>
    intro ids st h
    exact ⟨by simp [registerMany], by simpa [registerMany] using h⟩
  | cons cb rest ih =>
    intro ids st h
    obtain ⟨h1, h2, h3⟩ := register_hit parseHtml v cb m ids st h
    obtain ⟨ih1, ih2⟩ := ih _ _ h3
    simp only [registerMany]
    refine ⟨by simp [ih1], ?_⟩
    rw [h1]
    have heq : ids ++ mkInstanceId st.nextUuid
        :: (registerMany parseHtml v (some m) rest
            (register parseHtml v cb (some m) st).2).1
        = (ids ++ [mkInstanceId st.nextUuid])
          ++ (registerMany parseHtml v (some m) rest
              (register parseHtml v cb (some m) st).2).1 := by
      simp
    rw [heq]
    exact ih2

theorem registerMany_shape (parseHtml : String → DomForest) (v : String)
    (m : TranslateMode) (cb0 : Nat) (rest : List Nat) :
    (registerMany parseHtml v (some m) (cb0 :: rest) initState).1.length
      = rest.length + 1 ∧
    c3Shape v m (registerMany parseHtml v (some m) (cb0 :: rest) initState).1
      (registerMany parseHtml v (some m) (cb0 :: rest) initState).2 := by
  obtain ⟨e1, e2, e3⟩ := register_first parseHtml v cb0 m
  obtain ⟨f1, f2⟩ := registerMany_from parseHtml v m rest [mkInstanceId 1]
    (register parseHtml v cb0 (some m) initState).2 e3
  simp only [registerMany]
  constructor
  · simp [f1]
  · rw [e1]
    simpa using f2

theorem unregister_step (v : String) (m : TranslateMode) (ids : List String)
    (st : MState) (x : String) (h : c3Shape v m ids st) (hx : x ∈ ids) :
    (2 ≤ ids.length → c3Shape v m (ids.erase x) (unregister x st)) ∧
    (ids.length = 1 →
      alookup (getValueKey m v) (unregister x st).valueToMirror = none ∧
      alookup (mkMirrorId 0) (unregister x st).idToEntry = none ∧
      (unregister x st).container = []) := by
  obtain ⟨hnd, hbound, hobs, hval, ⟨e, hie, heid, hev, hem, hec⟩, hinst, hcont⟩ := h
  obtain ⟨him, c, hic⟩ := hinst x hx
  obtain ⟨nd, hc1, hc2⟩ := hcont
  have hu : unregister x st = detachInstance x (mkMirrorId 0) c st := by
    simp [unregister, him, hic]
  constructor
  · -- count stays positive: entry survives with count − 1
    intro hlen
    have hcnt : ¬(e.count - 1 = 0) := by rw [hec]; omega
    have hshape : ∀ (obs2 : List (String × List Nat)),
        (obs2 = [] ∨ ∃ s2, obs2 = [(mkMirrorId 0, s2)]) →
        c3Shape v m (ids.erase x)
          { st with
            idToEntry := [(mkMirrorId 0, { e with count := e.count - 1 })]
            observers := obs2
            instanceToMirror := aerase x st.instanceToMirror
            instanceToCallback := aerase x st.instanceToCallback
            instanceToMode := aerase x st.instanceToMode } := by
      intro obs2 hobs2
      refine ⟨hnd.erase x, ?_, hobs2, hval, ?_, ?_, ⟨nd, hc1, hc2⟩⟩
      · intro i hi
        exact hbound i (List.mem_of_mem_erase hi)
      · refine ⟨{ e with count := e.count - 1 }, rfl, by simp [heid], by simp [hev],
          by simp [hem], ?_⟩
        simp [hec, List.length_erase_of_mem hx]
      · intro i hi
        have hix : i ≠ x := (List.Nodup.mem_erase_iff hnd).mp hi |>.1
        obtain ⟨him2, c2, hic2⟩ := hinst i (List.mem_of_mem_erase hi)
        constructor
        · rw [show alookup i (aerase x st.instanceToMirror)
              = alookup i st.instanceToMirror from alookup_aerase_ne _ (Ne.symm hix)]
          exact him2
        · exact ⟨c2, by
            rw [show alookup i (aerase x st.instanceToCallback)
                = alookup i st.instanceToCallback from alookup_aerase_ne _ (Ne.symm hix)]
            exact hic2⟩
    rcases hobs with hobs | ⟨s, hobs⟩
    · have hD : unregister x st
          = { st with
              idToEntry := [(mkMirrorId 0, { e with count := e.count - 1 })]
              observers := ([] : List (String × List Nat))
              instanceToMirror := aerase x st.instanceToMirror
              instanceToCallback := aerase x st.instanceToCallback
              instanceToMode := aerase x st.instanceToMode } := by
        rw [hu]
        simp [detachInstance, hie, hcnt, hobs, aset]
      rw [hD]
      exact hshape _ (Or.inl rfl)
    · by_cases hs2 : s.erase c = []
      · have hD : unregister x st
            = { st with
                idToEntry := [(mkMirrorId 0, { e with count := e.count - 1 })]
                observers := ([] : List (String × List Nat))
                instanceToMirror := aerase x st.instanceToMirror
                instanceToCallback := aerase x st.instanceToCallback
                instanceToMode := aerase x st.instanceToMode } := by
          rw [hu]
          simp [detachInstance, hie, hcnt, hobs, hs2, aset, aerase, List.filter]
        rw [hD]
        exact hshape _ (Or.inl rfl)
      · have hD : unregister x st
            = { st with
                idToEntry := [(mkMirrorId 0, { e with count := e.count - 1 })]
                observers := [(mkMirrorId 0, s.erase c)]
                instanceToMirror := aerase x st.instanceToMirror
                instanceToCallback := aerase x st.instanceToCallback
                instanceToMode := aerase x st.instanceToMode } := by
          rw [hu]
          simp [detachInstance, hie, hcnt, hobs, hs2, aset]
        rw [hD]
        exact hshape _ (Or.inr ⟨s.erase c, rfl⟩)
  · -- last unregister: the entry and its node are destroyed
    intro hlen
    have hcnt : e.count - 1 = 0 := by rw [hec, hlen]
    rw [hu]
    rcases hobs with hobs | ⟨s, hobs⟩ <;>
      simp [detachInstance, hie, hcnt, hem, hev, hval, hobs, hc1, hc2, removeChild,
        aerase, List.filter]

theorem unregisterMany_cases (v : String) (m : TranslateMode) (l : List String) :
    ∀ (R : List String) (st : MState), c3Shape v m R st → R ≠ [] → l.Nodup →
      (∀ x ∈ l, x ∈ R) →
      (l.length < R.length →
        ∃ R2, R2.length = R.length - l.length ∧ R2 ≠ [] ∧
          c3Shape v m R2 (unregisterMany l st)) ∧
      (l.length = R.length →
        alookup (getValueKey m v) (unregisterMany l st).valueToMirror = none ∧
        alookup (mkMirrorId 0) (unregisterMany l st).idToEntry = none ∧
        (unregisterMany l st).container = []) := by
  induction l with
  | nil =>
    intro R st h hne hnd hsub
    constructor
    · intro hlt
      exact ⟨R, by simp, hne, by simpa [unregisterMany] using h⟩
    · intro heq
      exfalso
      cases R with
      | nil => exact hne rfl
      | cons a as => simp at heq
  | cons x l ih =>
    intro R st h hne hnd hsub
    have hRnd : R.Nodup := h.1
    have hx : x ∈ R := hsub x (List.mem_cons_self x l)
    obtain ⟨hstep2, hstep1⟩ := unregister_step v m R st x h hx
    have hunfold : unregisterMany (x :: l) st = unregisterMany l (unregister x st) := rfl
    by_cases hR1 : R.length = 1
    · have hl0 : l = [] := by
        cases l with
        | nil => rfl
        | cons y ys =>
          exfalso
          have hy : y ∈ R := hsub y (by simp)
          have hyx : y ≠ x := by
            intro hyx
            subst hyx
            exact (List.nodup_cons.mp hnd).1 (by simp)
          cases R with
          | nil => exact hne rfl
          | cons a as =>
            cases as with
            | nil =>
              simp at hx hy
              exact hyx (hy.trans hx.symm)
            | cons b bs => simp at hR1
      subst hl0
      obtain ⟨hd1, hd2, hd3⟩ := hstep1 hR1
      constructor
      · intro hlt
        simp at hlt
        omega
      · intro _
        rw [hunfold]
        exact ⟨by simpa [unregisterMany] using hd1,
          by simpa [unregisterMany] using hd2, by simpa [unregisterMany] using hd3⟩
    · have hRlen : 1 ≤ R.length := by
        cases R with
        | nil => exact absurd rfl hne
        | cons a as => simp
      have hR2 : 2 ≤ R.length := by omega
      have hsh := hstep2 hR2
      have hElen : (R.erase x).length = R.length - 1 := List.length_erase_of_mem hx
      have hErne : R.erase x ≠ [] := by
        intro hE
        rw [hE] at hElen
        simp at hElen
        omega
      have hsub2 : ∀ y ∈ l, y ∈ R.erase x := by
        intro y hy
        have hyx : y ≠ x := by
          intro hyx
          subst hyx
          exact (List.nodup_cons.mp hnd).1 hy
        exact (List.Nodup.mem_erase_iff hRnd).mpr ⟨hyx, hsub y (List.mem_cons_of_mem _ hy)⟩
      obtain ⟨ihlt, iheq⟩ := ih (R.erase x) (unregister x st) hsh hErne
        (List.nodup_cons.mp hnd).2 hsub2
      constructor
      · intro hlt
        simp only [List.length_cons] at hlt
        have hlt2 : l.length < (R.erase x).length := by
          clear hstep1 hstep2 ihlt iheq hsub hsub2 hunfold hsh
          omega
        obtain ⟨R2, hR2len, hR2ne, hR2sh⟩ := ihlt hlt2
        refine ⟨R2, ?_, hR2ne, ?_⟩
        · simp only [List.length_cons]
          clear hstep1 hstep2 ihlt iheq hsub hsub2 hunfold hsh hR2sh hR2ne
          omega
        · rw [hunfold]
          exact hR2sh
      · intro heq
        simp only [List.length_cons] at heq
        have heq2 : l.length = (R.erase x).length := by
          clear hstep1 hstep2 ihlt iheq hsub hsub2 hunfold hsh
          omega
        obtain ⟨g1, g2, g3⟩ := iheq heq2
        rw [hunfold]
        exact ⟨g1, g2, g3⟩

/-- Claim C3 (refcount teardown): after registering `v` N times (N =
`cbs.length + 1 ≥ 1`) and unregistering any duplicate-free sublist `l` of the
returned instance ids — in any order — the dedup entry for `v` is still
present with `count = N - l.length` and its mirror node is still in the
container while `l.length < N`; once `l.length = N` (i.e. `l` is a
permutation of the returned ids) the dedup entry is gone and the node has
been removed from the container. -/
theorem c3_refcount_teardown (parseHtml : String → DomForest) (v : String)
    (m : TranslateMode) (cb0 : Nat) (cbs : List Nat) (l : List String)
    (hnd : l.Nodup)
    (hsub : ∀ x ∈ l, x ∈ (registerMany parseHtml v (some m) (cb0 :: cbs) initState).1) :
    let r := registerMany parseHtml v (some m) (cb0 :: cbs) initState
    let st2 := unregisterMany l r.2
    (l.length < cbs.length + 1 →
      alookup (getValueKey m v) st2.valueToMirror = some (mkMirrorId 0) ∧
      (∃ e, alookup (mkMirrorId 0) st2.idToEntry = some e ∧ e.value = v ∧ e.mode = m ∧
        e.count = cbs.length + 1 - l.length) ∧
      (∃ nd, st2.container = [nd] ∧ nd.mirrorId = mkMirrorId 0)) ∧
    (l.length = cbs.length + 1 →
      alookup (getValueKey m v) st2.valueToMirror = none ∧
      alookup (mkMirrorId 0) st2.idToEntry = none ∧
      st2.container = []) := by
  intro r st2
  obtain ⟨hlen, hsh⟩ := registerMany_shape parseHtml v m cb0 cbs
  have hrne : r.1 ≠ [] := by
    intro h0
    rw [show r.1 = (registerMany parseHtml v (some m) (cb0 :: cbs) initState).1 from rfl,
      h0] at hlen
    simp at hlen
  obtain ⟨hlt, heq⟩ := unregisterMany_cases v m l r.1 r.2 hsh hrne hnd hsub
  constructor
  · intro hl
    obtain ⟨R2, hR2len, hR2ne, hR2sh⟩ := hlt (by rw [hlen]; omega)
    obtain ⟨-, -, -, hval, ⟨e, hie, -, hev, hem, hec⟩, -, hcont⟩ := hR2sh
    refine ⟨by rw [hval]; simp, ⟨e, by rw [hie]; simp, hev, hem, ?_⟩, hcont⟩
    rw [hec, hR2len, hlen]
  · intro hl
    exact heq (by rw [hlen]; omega)

theorem c3_refcount_teardown_witness :
    ([mkInstanceId 2, mkInstanceId 1] : List String).Nodup ∧
    (∀ x ∈ ([mkInstanceId 2, mkInstanceId 1] : List String),
      x ∈ (registerMany (fun _ => .nil) "a" (some .text) [0, 1] initState).1) ∧
    (let r := registerMany (fun _ => .nil) "a" (some .text) [0, 1] initState
     let st2 := unregisterMany [mkInstanceId 2, mkInstanceId 1] r.2
     (([mkInstanceId 2, mkInstanceId 1] : List String).length < [1].length + 1 →
       alookup (getValueKey .text "a") st2.valueToMirror = some (mkMirrorId 0) ∧
       (∃ e, alookup (mkMirrorId 0) st2.idToEntry = some e ∧ e.value = "a" ∧
         e.mode = .text ∧
         e.count = [1].length + 1 - ([mkInstanceId 2, mkInstanceId 1] : List String).length) ∧
       (∃ nd, st2.container = [nd] ∧ nd.mirrorId = mkMirrorId 0)) ∧
     (([mkInstanceId 2, mkInstanceId 1] : List String).length = [1].length + 1 →
       alookup (getValueKey .text "a") st2.valueToMirror = none ∧
       alookup (mkMirrorId 0) st2.idToEntry = none ∧
       st2.container = [])) :=
  ⟨by decide, by decide,
    c3_refcount_teardown (fun _ => .nil) "a" .text 0 [1]
      [mkInstanceId 2, mkInstanceId 1] (by decide) (by decide)⟩

/- number of live instances attached to a mirror id -/
def countInst (l : List (String × String)) (mid : String) : Nat :=
  (l.filter (fun p => p.2 == mid)).length

theorem alookup_mem {κ α : Type} [DecidableEq κ] {k : κ} {v : α} {l : List (κ × α)}
    (h : alookup k l = some v) : (k, v) ∈ l := by
  induction l with
  | nil => simp [alookup] at h
  | cons p rest ih =>
    rw [alookup_cons] at h
    by_cases hp : p.1 = k
    · simp [hp] at h
      subst h
      subst hp
      exact List.mem_cons_self p rest
    · simp [hp] at h
      exact List.mem_cons_of_mem _ (ih h)

theorem mem_alookup {κ α : Type} [DecidableEq κ] {k : κ} {v : α} {l : List (κ × α)}
    (hnd : (l.map Prod.fst).Nodup) (h : (k, v) ∈ l) : alookup k l = some v := by
  induction l with
  | nil => simp at h
  | cons p rest ih =>
    rcases List.mem_cons.mp h with h1 | h1
    · subst h1
      simp [alookup]
    · have hk2 : p.1 ≠ k := by
        intro hc
        have : k ∈ rest.map Prod.fst := List.mem_map.mpr ⟨(k, v), h1, rfl⟩
        rw [List.map_cons, List.nodup_cons] at hnd
        exact hnd.1 (hc ▸ this)
      rw [alookup_cons_ne _ _ hk2]
      exact ih (by rw [List.map_cons, List.nodup_cons] at hnd; exact hnd.2) h1

theorem aerase_eq_self {κ α : Type} [DecidableEq κ] {k : κ} {l : List (κ × α)}
    (h : alookup k l = none) : aerase k l = l := by
  induction l with
  | nil => rfl
  | cons p rest ih =>
    rw [alookup_cons] at h
    by_cases hp : p.1 = k
    · simp [hp] at h
    · simp only [hp, if_false] at h
      have h2 := ih h
      simp only [aerase] at h2 ⊢
      rw [List.filter_cons, if_pos (by simp [hp]), h2]

theorem aset_append {κ α : Type} [DecidableEq κ] {k : κ} (v : α) {l : List (κ × α)}
    (h : alookup k l = none) : aset k v l = l ++ [(k, v)] := by
  induction l with
  | nil => rfl
  | cons p rest ih =>
    rw [alookup_cons] at h
    by_cases hp : p.1 = k
    · simp [hp] at h
    · simp only [hp, if_false] at h
      simp [aset, hp, ih h]

theorem countInst_cons (p : String × String) (l : List (String × String)) (mid : String) :
    countInst (p :: l) mid
      = (if p.2 = mid then 1 else 0) + countInst l mid := by
  unfold countInst
  rw [List.filter_cons]
  by_cases hp : p.2 = mid
  · simp only [hp]
    simp
    omega
  · simp [hp]

theorem countInst_aerase {i mid : String} {l : List (String × String)}
    (hnd : (l.map Prod.fst).Nodup) (h : alookup i l = some mid) (mid2 : String) :
    countInst (aerase i l) mid2
      = if mid2 = mid then countInst l mid2 - 1 else countInst l mid2 := by
  induction l with
  | nil => simp [alookup] at h
  | cons p rest ih =>
    rw [List.map_cons, List.nodup_cons] at hnd
    rw [alookup_cons] at h
    by_cases hp : p.1 = i
    · simp only [hp, if_true] at h
      have hrest : alookup i rest = none := by
        cases hlook : alookup i rest with
        | none => rfl
        | some w =>
          exact absurd (hp ▸ List.mem_map.mpr ⟨(i, w), alookup_mem hlook, rfl⟩ :
            p.1 ∈ rest.map Prod.fst) hnd.1
      have hself : aerase i (p :: rest) = rest := by
        simp only [aerase]
        rw [List.filter_cons, if_neg (by simp [hp])]
        have h2 := aerase_eq_self hrest
        simpa [aerase] using h2
      rw [hself]
      injection h with h
      subst h
      by_cases hm : mid2 = p.2
      · rw [if_pos hm, countInst_cons, if_pos hm.symm]
        omega
      · rw [if_neg hm, countInst_cons, if_neg (fun hc => hm hc.symm)]
        omega
    · simp only [hp, if_false] at h
      have hstep : aerase i (p :: rest) = p :: aerase i rest := by
        simp only [aerase]
        rw [List.filter_cons, if_pos (by simp [hp])]
      rw [hstep, countInst_cons, countInst_cons, ih hnd.2 h]
      by_cases hm : mid2 = mid
      · simp only [hm, if_true]
        have hpos : 1 ≤ countInst rest mid := by
          have hmem := alookup_mem h
          have hmem2 : (i, mid) ∈ rest.filter (fun p => p.2 == mid) := by
            rw [List.mem_filter]
            exact ⟨hmem, by simp⟩
          calc 1 ≤ (rest.filter (fun p => p.2 == mid)).length :=
                List.length_pos.mpr (List.ne_nil_of_mem hmem2)
            _ = countInst rest mid := rfl
        by_cases hpm : p.2 = mid <;> simp only [hpm, if_true, if_false] <;> omega
      · simp [hm]

theorem countInst_aset_fresh {i : String} (mid : String) {l : List (String × String)}
    (h : alookup i l = none) (mid2 : String) :
    countInst (aset i mid l) mid2
      = countInst l mid2 + (if mid = mid2 then 1 else 0) := by
  rw [aset_append mid h]
  unfold countInst
  rw [List.filter_append, List.length_append, List.filter_cons]
  by_cases hm : mid = mid2 <;> simp [hm]

theorem countInst_pos {mid : String} {l : List (String × String)}
    (hnd : (l.map Prod.fst).Nodup) (h : 1 ≤ countInst l mid) :
    ∃ i, alookup i l = some mid := by
  unfold countInst at h
  cases hf : l.filter (fun p => p.2 == mid) with
  | nil => rw [hf] at h; simp at h
  | cons a t =>
    have ha : a ∈ l.filter (fun p => p.2 == mid) := by rw [hf]; simp
    rw [List.mem_filter] at ha
    have ha2 : a.2 = mid := by simpa using ha.2
    exact ⟨a.1, by rw [← ha2]; exact mem_alookup hnd (by simpa using ha.1)⟩

theorem countInst_two {i mid : String} {l : List (String × String)}
    (hnd : (l.map Prod.fst).Nodup) (hc : 2 ≤ countInst l mid) :
    ∃ j, j ≠ i ∧ alookup j l = some mid := by
  unfold countInst at hc
  have hsub : (l.filter (fun p => p.2 == mid)).Sublist l := List.filter_sublist l
  have hndf : ((l.filter (fun p => p.2 == mid)).map Prod.fst).Nodup :=
    (hnd.sublist (hsub.map Prod.fst))
  cases hf : l.filter (fun p => p.2 == mid) with
  | nil => rw [hf] at hc; simp at hc
  | cons a t =>
    cases t with
    | nil => rw [hf] at hc; simp at hc
    | cons b t2 =>
      rw [hf] at hndf
      have hab : a.1 ≠ b.1 := by
        rw [List.map_cons, List.map_cons, List.nodup_cons] at hndf
        intro hc2
        exact hndf.1 (by rw [hc2]; simp)
      have hamem : a ∈ l ∧ a.2 = mid := by
        have hm : a ∈ List.filter (fun p => p.2 == mid) l := by rw [hf]; simp
        rw [List.mem_filter] at hm
        exact ⟨hm.1, by simpa using hm.2⟩
      have hbmem : b ∈ l ∧ b.2 = mid := by
        have hm : b ∈ List.filter (fun p => p.2 == mid) l := by rw [hf]; simp
        rw [List.mem_filter] at hm
        exact ⟨hm.1, by simpa using hm.2⟩
      by_cases hai : a.1 = i
      · refine ⟨b.1, by rw [← hai]; exact fun hc2 => hab hc2.symm, ?_⟩
        rw [← hbmem.2]
        exact mem_alookup hnd hbmem.1
      · refine ⟨a.1, hai, ?_⟩
        rw [← hamem.2]
        exact mem_alookup hnd hamem.1

theorem alookup_aerase_some {κ α : Type} [DecidableEq κ] {k k2 : κ} {v : α}
    {l : List (κ × α)} (h : alookup k (aerase k2 l) = some v) :
    k ≠ k2 ∧ alookup k l = some v := by
  by_cases hk : k = k2
  · subst hk
    rw [alookup_aerase_self] at h
    cases h
  · exact ⟨hk, by rw [← alookup_aerase_ne l (fun hc => hk hc.symm)]; exact h⟩

theorem two_le_length_of_mem_ne {α : Type} {a b : α} {l : List α}
    (hab : a ≠ b) (ha : a ∈ l) (hb : b ∈ l) : 2 ≤ l.length := by
  cases l with
  | nil => simp at ha
  | cons x t =>
    cases t with
    | nil =>
      simp at ha hb
      exact absurd (ha.trans hb.symm) hab
    | cons y t2 => simp

theorem countInst_two_of_ne {i j mid : String} {l : List (String × String)}
    (hij : i ≠ j) (hi : alookup i l = some mid) (hj : alookup j l = some mid) :
    2 ≤ countInst l mid := by
  have hmi : (i, mid) ∈ l.filter (fun p => p.2 == mid) :=
    List.mem_filter.mpr ⟨alookup_mem hi, by simp⟩
  have hmj : (j, mid) ∈ l.filter (fun p => p.2 == mid) :=
    List.mem_filter.mpr ⟨alookup_mem hj, by simp⟩
  exact two_le_length_of_mem_ne (by simp [hij]) hmi hmj

theorem mem_setAdd_of_mem {s : List Nat} {a : Nat} (c : Nat) (h : a ∈ s) :
    a ∈ setAdd s c := by
  unfold setAdd
  by_cases hc : c ∈ s <;> simp [hc, h]

theorem mem_setAdd_self (s : List Nat) (c : Nat) : c ∈ setAdd s c := by
  unfold setAdd
  by_cases hc : c ∈ s <;> simp [hc]

/- The inductive invariant for C4, with a ghost assignment `f` of each
instance id to the callback it was registered with (the recorded
`instanceToCallback` may be dropped by `updateValue`'s entry-switching
paths, but the callback itself remains in the observer set of the
instance's entry). -/
structure C4Inv (st : MState) (f : String → Nat) : Prop where
  nodupInst : (st.instanceToMirror.map Prod.fst).Nodup
  instEntry : ∀ i mid, alookup i st.instanceToMirror = some mid →
    ∃ e, alookup mid st.idToEntry = some e
  instObs : ∀ i mid, alookup i st.instanceToMirror = some mid →
    ∃ s, alookup mid st.observers = some s ∧ f i ∈ s
  cbTrack : ∀ i c, alookup i st.instanceToCallback = some c →
    (∃ mid, alookup i st.instanceToMirror = some mid) ∧ c = f i
  fInj : ∀ i j mi mj, alookup i st.instanceToMirror = some mi →
    alookup j st.instanceToMirror = some mj → f i = f j → i = j
  countEq : ∀ mid e, alookup mid st.idToEntry = some e →
    e.count = countInst st.instanceToMirror mid ∧ 1 ≤ e.count
  entryKey : ∀ mid e, alookup mid st.idToEntry = some e →
    alookup (getValueKey e.mode e.value) st.valueToMirror = some mid
  keyEntry : ∀ k mid, alookup k st.valueToMirror = some mid →
    ∃ e, alookup mid st.idToEntry = some e ∧ k = getValueKey e.mode e.value
  modeEq : ∀ i mid e, alookup i st.instanceToMirror = some mid →
    alookup mid st.idToEntry = some e → alookup i st.instanceToMode = some e.mode
  instBound : ∀ i mid, alookup i st.instanceToMirror = some mid →
    ∃ j, j < st.nextUuid ∧ i = mkInstanceId j
  midBound : ∀ mid e, alookup mid st.idToEntry = some e →
    ∃ j, j < st.nextUuid ∧ mid = mkMirrorId j

theorem nodup_aerase {κ α : Type} [DecidableEq κ] (k : κ) (l : List (κ × α))
    (h : (l.map Prod.fst).Nodup) : ((aerase k l).map Prod.fst).Nodup :=
  h.sublist ((List.filter_sublist l).map Prod.fst)

theorem detach_c4 (st : MState) (f : String → Nat) (i mid : String)
    (hInv : C4Inv st f) (him : alookup i st.instanceToMirror = some mid) :
    C4Inv (detachInstance i mid (f i) st) f ∧
    (detachInstance i mid (f i) st).instanceToMirror = aerase i st.instanceToMirror ∧
    (detachInstance i mid (f i) st).instanceToCallback = aerase i st.instanceToCallback ∧
    (detachInstance i mid (f i) st).instanceToMode = aerase i st.instanceToMode ∧
    (detachInstance i mid (f i) st).nextUuid = st.nextUuid ∧
    (detachInstance i mid (f i) st).nextNode = st.nextNode ∧
    (∀ mid2, mid2 ≠ mid →
      alookup mid2 (detachInstance i mid (f i) st).idToEntry
        = alookup mid2 st.idToEntry) ∧
    (∀ mid2, mid2 ≠ mid →
      alookup mid2 (detachInstance i mid (f i) st).observers
        = alookup mid2 st.observers) ∧
    (∀ k, alookup k st.valueToMirror = none →
      alookup k (detachInstance i mid (f i) st).valueToMirror = none) := by
  obtain ⟨e, he⟩ := hInv.instEntry i mid him
  obtain ⟨hcnt, hcpos⟩ := hInv.countEq mid e he
  obtain ⟨s, hs, hfs⟩ := hInv.instObs i mid him
  by_cases hone : e.count = 1
  · -- sole instance: the entry, its key, its observers and its node are destroyed
    have hcnt1 : countInst st.instanceToMirror mid = 1 := by omega
    have hsub : e.count - 1 = 0 := by omega
    have huniq : ∀ j, alookup j st.instanceToMirror = some mid → j = i := by
      intro j hj
      by_contra hji
      have h2 := countInst_two_of_ne (i := j) (j := i) hji hj him
      omega
    have hD : detachInstance i mid (f i) st = { st with
        valueToMirror := aerase (getValueKey e.mode e.value) st.valueToMirror
        idToEntry := aerase mid st.idToEntry
        observers := aerase mid st.observers
        container := removeChild mid st.container
        instanceToMirror := aerase i st.instanceToMirror
        instanceToCallback := aerase i st.instanceToCallback
        instanceToMode := aerase i st.instanceToMode } := by
      simp [detachInstance, he, hsub, alookup_aerase_self]
    rw [hD]
    refine ⟨?_, rfl, rfl, rfl, rfl, rfl,
      fun mid2 hne => alookup_aerase_ne _ (fun hc => hne hc.symm),
      fun mid2 hne => alookup_aerase_ne _ (fun hc => hne hc.symm), ?_⟩
    · constructor
      · exact nodup_aerase i _ hInv.nodupInst
      · intro j mid2 hj
        obtain ⟨hji, hj2⟩ := alookup_aerase_some hj
        have hne : mid2 ≠ mid := fun hc => hji (huniq j (hc ▸ hj2))
        obtain ⟨e2, he2⟩ := hInv.instEntry j mid2 hj2
        exact ⟨e2, by rw [alookup_aerase_ne _ (fun hc => hne hc.symm)]; exact he2⟩
      · intro j mid2 hj
        obtain ⟨hji, hj2⟩ := alookup_aerase_some hj
        have hne : mid2 ≠ mid := fun hc => hji (huniq j (hc ▸ hj2))
        obtain ⟨s2, hs2, hfs2⟩ := hInv.instObs j mid2 hj2
        exact ⟨s2, by rw [alookup_aerase_ne _ (fun hc => hne hc.symm)]; exact hs2, hfs2⟩
      · intro j c hj
        obtain ⟨hji, hj2⟩ := alookup_aerase_some hj
        obtain ⟨⟨mid2, hm2⟩, hcf⟩ := hInv.cbTrack j c hj2
        have hne : mid2 ≠ mid := fun hc => hji (huniq j (hc ▸ hm2))
        exact ⟨⟨mid2, by rw [alookup_aerase_ne _ (fun hc => hji hc.symm)]; exact hm2⟩, hcf⟩
      · intro j1 j2 m1 m2 h1 h2 hf12
        exact hInv.fInj j1 j2 m1 m2 (alookup_aerase_some h1).2 (alookup_aerase_some h2).2 hf12
      · intro mid2 e2 he2
        obtain ⟨hne, he2o⟩ := alookup_aerase_some he2
        obtain ⟨hc2, hp2⟩ := hInv.countEq mid2 e2 he2o
        refine ⟨?_, hp2⟩
        rw [countInst_aerase hInv.nodupInst him mid2, if_neg hne, hc2]
      · intro mid2 e2 he2
        obtain ⟨hne, he2o⟩ := alookup_aerase_some he2
        have hkne : getValueKey e2.mode e2.value ≠ getValueKey e.mode e.value := by
          intro hc
          have h1 := hInv.entryKey mid2 e2 he2o
          have h2 := hInv.entryKey mid e he
          rw [hc, h2] at h1
          injection h1 with h1
          exact hne h1.symm
        rw [alookup_aerase_ne _ (fun hc => hkne hc.symm)]
        exact hInv.entryKey mid2 e2 he2o
      · intro k mid2 hk
        obtain ⟨hkne, hko⟩ := alookup_aerase_some hk
        obtain ⟨e2, he2, hke2⟩ := hInv.keyEntry k mid2 hko
        have hne : mid2 ≠ mid := by
          intro hc
          subst hc
          rw [he2] at he
          injection he with he
          exact hkne (by rw [hke2, he])
        exact ⟨e2, by rw [alookup_aerase_ne _ (fun hc => hne hc.symm)]; exact he2, hke2⟩
      · intro j mid2 e2 hj he2
        obtain ⟨hji, hj2⟩ := alookup_aerase_some hj
        obtain ⟨hne, he2o⟩ := alookup_aerase_some he2
        rw [alookup_aerase_ne _ (fun hc => hji hc.symm)]
        exact hInv.modeEq j mid2 e2 hj2 he2o
      · intro j mid2 hj
        exact hInv.instBound j mid2 (alookup_aerase_some hj).2
      · intro mid2 e2 he2
        exact hInv.midBound mid2 e2 (alookup_aerase_some he2).2
    · intro k hk
      cases hlk : alookup k (aerase (getValueKey e.mode e.value) st.valueToMirror) with
      | none => rfl
      | some mid2 =>
        obtain ⟨_, h2⟩ := alookup_aerase_some hlk
        rw [hk] at h2
        cases h2
  · -- shared entry: count is decremented, the instance's callback leaves the set
    have hge2 : 2 ≤ e.count := by omega
    have hge2c : 2 ≤ countInst st.instanceToMirror mid := by omega
    obtain ⟨j, hji, hj⟩ := countInst_two (i := i) hInv.nodupInst hge2c
    obtain ⟨sj, hsj, hfsj⟩ := hInv.instObs j mid hj
    rw [hs] at hsj
    injection hsj with hsj
    subst hsj
    have hfij : f j ≠ f i := fun hc => hji (hInv.fInj j i mid mid hj him hc)
    have hmem : f j ∈ s.erase (f i) := (List.mem_erase_of_ne hfij).mpr hfsj
    have hserne : s.erase (f i) ≠ [] := List.ne_nil_of_mem hmem
    have hsub : ¬(e.count - 1 = 0) := by omega
    have hD : detachInstance i mid (f i) st = { st with
        idToEntry := aset mid { e with count := e.count - 1 } st.idToEntry
        observers := aset mid (s.erase (f i)) st.observers
        instanceToMirror := aerase i st.instanceToMirror
        instanceToCallback := aerase i st.instanceToCallback
        instanceToMode := aerase i st.instanceToMode } := by
      simp [detachInstance, he, hsub, hs, hserne]
    rw [hD]
    refine ⟨?_, rfl, rfl, rfl, rfl, rfl,
      fun mid2 hne => alookup_aset_ne _ _ (fun hc => hne hc.symm),
      fun mid2 hne => alookup_aset_ne _ _ (fun hc => hne hc.symm),
      fun k hk => hk⟩
    constructor
    · exact nodup_aerase i _ hInv.nodupInst
    · intro j2 mid2 hj2
      obtain ⟨hj2i, hj2o⟩ := alookup_aerase_some hj2
      by_cases hne : mid2 = mid
      · subst hne
        exact ⟨{ e with count := e.count - 1 }, by rw [alookup_aset_self]⟩
      · obtain ⟨e2, he2⟩ := hInv.instEntry j2 mid2 hj2o
        exact ⟨e2, by rw [alookup_aset_ne _ _ (fun hc => hne hc.symm)]; exact he2⟩
    · intro j2 mid2 hj2
      obtain ⟨hj2i, hj2o⟩ := alookup_aerase_some hj2
      by_cases hne : mid2 = mid
      · subst hne
        obtain ⟨s2, hs2, hfs2⟩ := hInv.instObs j2 mid2 hj2o
        rw [hs] at hs2
        injection hs2 with hs2
        subst hs2
        have hfj2i : f j2 ≠ f i :=
          fun hc => hj2i (hInv.fInj j2 i mid2 mid2 hj2o him hc)
        exact ⟨s.erase (f i), by rw [alookup_aset_self],
          (List.mem_erase_of_ne hfj2i).mpr hfs2⟩
      · obtain ⟨s2, hs2, hfs2⟩ := hInv.instObs j2 mid2 hj2o
        exact ⟨s2, by rw [alookup_aset_ne _ _ (fun hc => hne hc.symm)]; exact hs2, hfs2⟩
    · intro j2 c hj2
      obtain ⟨hj2i, hj2o⟩ := alookup_aerase_some hj2
      obtain ⟨⟨mid2, hm2⟩, hcf⟩ := hInv.cbTrack j2 c hj2o
      exact ⟨⟨mid2, by rw [alookup_aerase_ne _ (fun hc => hj2i hc.symm)]; exact hm2⟩, hcf⟩
    · intro j1 j2 m1 m2 h1 h2 hf12
      exact hInv.fInj j1 j2 m1 m2 (alookup_aerase_some h1).2 (alookup_aerase_some h2).2 hf12
    · intro mid2 e2 he2
      by_cases hne : mid2 = mid
      · subst hne
        rw [alookup_aset_self] at he2
        injection he2 with he2
        subst he2
        constructor
        · rw [countInst_aerase hInv.nodupInst him mid2, if_pos rfl]
          simp
          omega
        · simp
          omega
      · rw [alookup_aset_ne _ _ (fun hc => hne hc.symm)] at he2
        obtain ⟨hc2, hp2⟩ := hInv.countEq mid2 e2 he2
        refine ⟨?_, hp2⟩
        rw [countInst_aerase hInv.nodupInst him mid2, if_neg hne, hc2]
    · intro mid2 e2 he2
      by_cases hne : mid2 = mid
      · subst hne
        rw [alookup_aset_self] at he2
        injection he2 with he2
        subst he2
        simpa using hInv.entryKey mid2 e he
      · rw [alookup_aset_ne _ _ (fun hc => hne hc.symm)] at he2
        exact hInv.entryKey mid2 e2 he2
    · intro k mid2 hk
      obtain ⟨e2, he2, hke2⟩ := hInv.keyEntry k mid2 hk
      by_cases hne : mid2 = mid
      · subst hne
        rw [he] at he2
        injection he2 with he2
        subst he2
        exact ⟨{ e with count := e.count - 1 }, by rw [alookup_aset_self], by simpa using hke2⟩
      · exact ⟨e2, by rw [alookup_aset_ne _ _ (fun hc => hne hc.symm)]; exact he2, hke2⟩
    · intro j2 mid2 e2 hj2 he2
      obtain ⟨hj2i, hj2o⟩ := alookup_aerase_some hj2
      rw [alookup_aerase_ne _ (fun hc => hj2i hc.symm)]
      by_cases hne : mid2 = mid
      · subst hne
        rw [alookup_aset_self] at he2
        injection he2 with he2
        subst he2
        simpa using hInv.modeEq j2 mid2 e hj2o he
      · rw [alookup_aset_ne _ _ (fun hc => hne hc.symm)] at he2
        exact hInv.modeEq j2 mid2 e2 hj2o he2
    · intro j2 mid2 hj2
      exact hInv.instBound j2 mid2 (alookup_aerase_some hj2).2
    · intro mid2 e2 he2
      by_cases hne : mid2 = mid
      · subst hne
        exact hInv.midBound mid2 e he
      · rw [alookup_aset_ne _ _ (fun hc => hne hc.symm)] at he2
        exact hInv.midBound mid2 e2 he2

theorem not_key_of_alookup_none {κ α : Type} [DecidableEq κ] {k : κ} {l : List (κ × α)}
    (h : alookup k l = none) : k ∉ l.map Prod.fst := by
  induction l with
  | nil => simp
  | cons p rest ih =>
    by_cases hk : p.1 = k
    · rw [show p = (p.1, p.2) from rfl, hk, alookup_cons_self] at h
      cases h
    · rw [show p = (p.1, p.2) from rfl, alookup_cons_ne _ _ hk] at h
      simpa [Ne.symm hk] using ih h

theorem nodup_aset_fresh {κ α : Type} [DecidableEq κ] {k : κ} (v : α) {l : List (κ × α)}
    (h : alookup k l = none) (hnd : (l.map Prod.fst).Nodup) :
    ((aset k v l).map Prod.fst).Nodup := by
  rw [aset_append v h]
  simp only [List.map_append, List.map_cons, List.map_nil]
  rw [List.nodup_append]
  refine ⟨hnd, List.nodup_singleton _, ?_⟩
  intro a ha hb
  simp only [List.mem_singleton] at hb
  exact not_key_of_alookup_none h (hb ▸ ha)

theorem C4Inv_congr {st : MState} {f f2 : String → Nat}
    (hagree : ∀ j mid, alookup j st.instanceToMirror = some mid → f j = f2 j)
    (hInv : C4Inv st f) : C4Inv st f2 := by
  constructor
  · exact hInv.nodupInst
  · exact hInv.instEntry
  · intro i mid hi
    obtain ⟨s, hs, hfs⟩ := hInv.instObs i mid hi
    exact ⟨s, hs, hagree i mid hi ▸ hfs⟩
  · intro i c hc
    obtain ⟨⟨mid, hm⟩, hcf⟩ := hInv.cbTrack i c hc
    exact ⟨⟨mid, hm⟩, (hagree i mid hm) ▸ hcf⟩
  · intro i j mi mj hi hj hf
    exact hInv.fInj i j mi mj hi hj
      (by rw [hagree i mi hi, hagree j mj hj]; exact hf)
  · exact hInv.countEq
  · exact hInv.entryKey
  · exact hInv.keyEntry
  · exact hInv.modeEq
  · exact hInv.instBound
  · exact hInv.midBound

theorem attach_c4 (st : MState) (f : String → Nat) (i mid : String) (e : MirrorEntry)
    (s : List Nat) (cbm : List (String × Nat)) (u2 : Nat) (cont : List MirrorNode)
    (hInv : C4Inv st f)
    (hinone : alookup i st.instanceToMirror = none)
    (he : alookup mid st.idToEntry = some e)
    (hs : alookup mid st.observers = some s)
    (hfresh : ∀ j mid2, alookup j st.instanceToMirror = some mid2 → f j ≠ f i)
    (hcbm : cbm = st.instanceToCallback ∨ cbm = aset i (f i) st.instanceToCallback)
    (hu : st.nextUuid ≤ u2)
    (hib : ∃ jn, jn < u2 ∧ i = mkInstanceId jn) :
    C4Inv { st with
      nextUuid := u2
      idToEntry := aset mid { e with count := e.count + 1 } st.idToEntry
      observers := aset mid (setAdd s (f i)) st.observers
      container := cont
      instanceToMirror := aset i mid st.instanceToMirror
      instanceToCallback := cbm
      instanceToMode := aset i e.mode st.instanceToMode } f := by
  constructor
  · exact nodup_aset_fresh mid hinone hInv.nodupInst
  · intro j mid2 hj
    by_cases hji : j = i
    · subst hji
      rw [alookup_aset_self] at hj
      injection hj with hj
      subst hj
      exact ⟨{ e with count := e.count + 1 }, by rw [alookup_aset_self]⟩
    · rw [alookup_aset_ne _ _ (fun hc => hji hc.symm)] at hj
      obtain ⟨e2, he2⟩ := hInv.instEntry j mid2 hj
      by_cases hmm : mid2 = mid
      · subst hmm
        exact ⟨{ e with count := e.count + 1 }, by rw [alookup_aset_self]⟩
      · exact ⟨e2, by rw [alookup_aset_ne _ _ (fun hc => hmm hc.symm)]; exact he2⟩
  · intro j mid2 hj
    by_cases hji : j = i
    · subst hji
      rw [alookup_aset_self] at hj
      injection hj with hj
      subst hj
      exact ⟨setAdd s (f j), by rw [alookup_aset_self], mem_setAdd_self s (f j)⟩
    · rw [alookup_aset_ne _ _ (fun hc => hji hc.symm)] at hj
      obtain ⟨s2, hs2, hfs2⟩ := hInv.instObs j mid2 hj
      by_cases hmm : mid2 = mid
      · subst hmm
        rw [hs] at hs2
        injection hs2 with hs2
        exact ⟨setAdd s (f i), by rw [alookup_aset_self],
          mem_setAdd_of_mem _ (by rw [hs2]; exact hfs2)⟩
      · exact ⟨s2, by rw [alookup_aset_ne _ _ (fun hc => hmm hc.symm)]; exact hs2, hfs2⟩
  · intro j c hc
    rcases hcbm with hcbm | hcbm
    · subst hcbm
      obtain ⟨⟨mid2, hm2⟩, hcf⟩ := hInv.cbTrack j c hc
      have hji : j ≠ i := fun hc2 => by rw [hc2, hinone] at hm2; cases hm2
      exact ⟨⟨mid2, by rw [alookup_aset_ne _ _ (fun hc2 => hji hc2.symm)]; exact hm2⟩, hcf⟩
    · subst hcbm
      by_cases hji : j = i
      · subst hji
        rw [alookup_aset_self] at hc
        injection hc with hc
        exact ⟨⟨mid, by rw [alookup_aset_self]⟩, hc.symm⟩
      · rw [alookup_aset_ne _ _ (fun hc2 => hji hc2.symm)] at hc
        obtain ⟨⟨mid2, hm2⟩, hcf⟩ := hInv.cbTrack j c hc
        exact ⟨⟨mid2, by rw [alookup_aset_ne _ _ (fun hc2 => hji hc2.symm)]; exact hm2⟩, hcf⟩
  · intro j1 j2 m1 m2 h1 h2 hf
    by_cases h1i : j1 = i
    · by_cases h2i : j2 = i
      · rw [h1i, h2i]
      · subst h1i
        rw [alookup_aset_ne _ _ (fun hc => h2i hc.symm)] at h2
        exact absurd hf.symm (hfresh j2 m2 h2)
    · by_cases h2i : j2 = i
      · subst h2i
        rw [alookup_aset_ne _ _ (fun hc => h1i hc.symm)] at h1
        exact absurd hf (hfresh j1 m1 h1)
      · rw [alookup_aset_ne _ _ (fun hc => h1i hc.symm)] at h1
        rw [alookup_aset_ne _ _ (fun hc => h2i hc.symm)] at h2
        exact hInv.fInj j1 j2 m1 m2 h1 h2 hf
  · intro mid2 e2 he2
    by_cases hmm : mid2 = mid
    · subst hmm
      rw [alookup_aset_self] at he2
      injection he2 with he2
      subst he2
      obtain ⟨hc, hp⟩ := hInv.countEq mid2 e he
      rw [countInst_aset_fresh mid2 hinone mid2, if_pos rfl]
      simp only
      omega
    · rw [alookup_aset_ne _ _ (fun hc => hmm hc.symm)] at he2
      obtain ⟨hc, hp⟩ := hInv.countEq mid2 e2 he2
      rw [countInst_aset_fresh mid hinone mid2, if_neg (fun hc2 => hmm hc2.symm)]
      omega
  · intro mid2 e2 he2
    by_cases hmm : mid2 = mid
    · subst hmm
      rw [alookup_aset_self] at he2
      injection he2 with he2
      subst he2
      simpa using hInv.entryKey mid2 e he
    · rw [alookup_aset_ne _ _ (fun hc => hmm hc.symm)] at he2
      exact hInv.entryKey mid2 e2 he2
  · intro k mid2 hk
    obtain ⟨e2, he2, hke2⟩ := hInv.keyEntry k mid2 hk
    by_cases hmm : mid2 = mid
    · subst hmm
      rw [he] at he2
      injection he2 with he2
      subst he2
      exact ⟨{ e with count := e.count + 1 }, by rw [alookup_aset_self], by simpa using hke2⟩
    · exact ⟨e2, by rw [alookup_aset_ne _ _ (fun hc => hmm hc.symm)]; exact he2, hke2⟩
  · intro j mid2 e2 hj he2
    by_cases hji : j = i
    · subst hji
      rw [alookup_aset_self] at hj
      injection hj with hj
      subst hj
      rw [alookup_aset_self] at he2
      injection he2 with he2
      subst he2
      rw [alookup_aset_self]
    · rw [alookup_aset_ne _ _ (fun hc => hji hc.symm)] at hj
      rw [alookup_aset_ne _ _ (fun hc => hji hc.symm)]
      by_cases hmm : mid2 = mid
      · subst hmm
        rw [alookup_aset_self] at he2
        injection he2 with he2
        subst he2
        simpa using hInv.modeEq j mid2 e hj he
      · rw [alookup_aset_ne _ _ (fun hc => hmm hc.symm)] at he2
        exact hInv.modeEq j mid2 e2 hj he2
  · intro j mid2 hj
    by_cases hji : j = i
    · subst hji
      exact hib
    · rw [alookup_aset_ne _ _ (fun hc => hji hc.symm)] at hj
      obtain ⟨jn, hjn, hje⟩ := hInv.instBound j mid2 hj
      exact ⟨jn, show jn < u2 by omega, hje⟩
  · intro mid2 e2 he2
    by_cases hmm : mid2 = mid
    · subst hmm
      obtain ⟨jn, hjn, hje⟩ := hInv.midBound mid2 e he
      exact ⟨jn, show jn < u2 by omega, hje⟩
    · rw [alookup_aset_ne _ _ (fun hc => hmm hc.symm)] at he2
      obtain ⟨jn, hjn, hje⟩ := hInv.midBound mid2 e2 he2
      exact ⟨jn, show jn < u2 by omega, hje⟩

theorem create_c4 (st : MState) (f : String → Nat) (i value : String)
    (mode : TranslateMode) (cbm : List (String × Nat)) (u2 n2 : Nat)
    (cont : List MirrorNode) (parseHtml : String → DomForest)
    (hInv : C4Inv st f)
    (hinone : alookup i st.instanceToMirror = none)
    (hkey : alookup (getValueKey mode value) st.valueToMirror = none)
    (hfresh : ∀ j mid2, alookup j st.instanceToMirror = some mid2 → f j ≠ f i)
    (hcbm : cbm = st.instanceToCallback ∨ cbm = aset i (f i) st.instanceToCallback)
    (hu : st.nextUuid < u2)
    (hib : ∃ jn, jn < u2 ∧ i = mkInstanceId jn) :
    C4Inv { st with
      nextUuid := u2
      nextNode := n2
      observers := aset (mkMirrorId st.nextUuid) [f i] st.observers
      valueToMirror := aset (getValueKey mode value) (mkMirrorId st.nextUuid)
        st.valueToMirror
      idToEntry := aset (mkMirrorId st.nextUuid)
        (renderEntry parseHtml
          { id := mkMirrorId st.nextUuid, value := value, count := 1, mode := mode }
          value).1
        st.idToEntry
      container := cont
      instanceToMirror := aset i (mkMirrorId st.nextUuid) st.instanceToMirror
      instanceToCallback := cbm
      instanceToMode := aset i mode st.instanceToMode } f := by
  have hnme : alookup (mkMirrorId st.nextUuid) st.idToEntry = none := by
    cases h : alookup (mkMirrorId st.nextUuid) st.idToEntry with
    | none => rfl
    | some e2 =>
      obtain ⟨jn, hjn, hje⟩ := hInv.midBound _ e2 h
      have := mkMirrorId_inj hje
      omega
  have hnmi : ∀ j, alookup j st.instanceToMirror ≠ some (mkMirrorId st.nextUuid) := by
    intro j hj
    obtain ⟨e2, he2⟩ := hInv.instEntry j _ hj
    rw [hnme] at he2
    cases he2
  have hcz : countInst st.instanceToMirror (mkMirrorId st.nextUuid) = 0 := by
    rcases Nat.eq_zero_or_pos (countInst st.instanceToMirror (mkMirrorId st.nextUuid))
      with h | h
    · exact h
    · obtain ⟨j, hj⟩ := countInst_pos hInv.nodupInst h
      exact absurd hj (hnmi j)
  constructor
  · exact nodup_aset_fresh _ hinone hInv.nodupInst
  · intro j mid2 hj
    by_cases hji : j = i
    · subst hji
      rw [alookup_aset_self] at hj
      injection hj with hj
      subst hj
      exact ⟨_, by rw [alookup_aset_self]⟩
    · rw [alookup_aset_ne _ _ (fun hc => hji hc.symm)] at hj
      obtain ⟨e2, he2⟩ := hInv.instEntry j mid2 hj
      have hmm : mid2 ≠ mkMirrorId st.nextUuid := by
        intro hc
        subst hc
        rw [hnme] at he2
        cases he2
      exact ⟨e2, by rw [alookup_aset_ne _ _ (fun hc => hmm hc.symm)]; exact he2⟩
  · intro j mid2 hj
    by_cases hji : j = i
    · subst hji
      rw [alookup_aset_self] at hj
      injection hj with hj
      subst hj
      exact ⟨[f j], by rw [alookup_aset_self], List.mem_singleton_self _⟩
    · rw [alookup_aset_ne _ _ (fun hc => hji hc.symm)] at hj
      have hmm : mid2 ≠ mkMirrorId st.nextUuid := fun hc => hnmi j (hc ▸ hj)
      obtain ⟨s2, hs2, hfs2⟩ := hInv.instObs j mid2 hj
      exact ⟨s2, by rw [alookup_aset_ne _ _ (fun hc => hmm hc.symm)]; exact hs2, hfs2⟩
  · intro j c hc
    rcases hcbm with hcbm | hcbm
    · subst hcbm
      obtain ⟨⟨mid2, hm2⟩, hcf⟩ := hInv.cbTrack j c hc
      have hji : j ≠ i := fun hc2 => by rw [hc2, hinone] at hm2; cases hm2
      exact ⟨⟨mid2, by rw [alookup_aset_ne _ _ (fun hc2 => hji hc2.symm)]; exact hm2⟩, hcf⟩
    · subst hcbm
      by_cases hji : j = i
      · subst hji
        rw [alookup_aset_self] at hc
        injection hc with hc
        exact ⟨⟨mkMirrorId st.nextUuid, by rw [alookup_aset_self]⟩, hc.symm⟩
      · rw [alookup_aset_ne _ _ (fun hc2 => hji hc2.symm)] at hc
        obtain ⟨⟨mid2, hm2⟩, hcf⟩ := hInv.cbTrack j c hc
        exact ⟨⟨mid2, by rw [alookup_aset_ne _ _ (fun hc2 => hji hc2.symm)]; exact hm2⟩, hcf⟩
  · intro j1 j2 m1 m2 h1 h2 hf
    by_cases h1i : j1 = i
    · by_cases h2i : j2 = i
      · rw [h1i, h2i]
      · subst h1i
        rw [alookup_aset_ne _ _ (fun hc => h2i hc.symm)] at h2
        exact absurd hf.symm (hfresh j2 m2 h2)
    · by_cases h2i : j2 = i
      · subst h2i
        rw [alookup_aset_ne _ _ (fun hc => h1i hc.symm)] at h1
        exact absurd hf (hfresh j1 m1 h1)
      · rw [alookup_aset_ne _ _ (fun hc => h1i hc.symm)] at h1
        rw [alookup_aset_ne _ _ (fun hc => h2i hc.symm)] at h2
        exact hInv.fInj j1 j2 m1 m2 h1 h2 hf
  · intro mid2 e2 he2
    by_cases hmm : mid2 = mkMirrorId st.nextUuid
    · rw [hmm, alookup_aset_self] at he2
      injection he2 with he2
      subst he2
      rw [hmm, countInst_aset_fresh _ hinone _, if_pos rfl, hcz]
      simp
    · rw [alookup_aset_ne _ _ (fun hc => hmm hc.symm)] at he2
      obtain ⟨hc, hp⟩ := hInv.countEq mid2 e2 he2
      rw [countInst_aset_fresh _ hinone mid2, if_neg (fun hc2 => hmm hc2.symm)]
      omega
  · intro mid2 e2 he2
    by_cases hmm : mid2 = mkMirrorId st.nextUuid
    · rw [hmm, alookup_aset_self] at he2
      injection he2 with he2
      subst he2
      rw [hmm, renderEntry_mode, renderEntry_value]
      exact alookup_aset_self _ _ _
    · rw [alookup_aset_ne _ _ (fun hc => hmm hc.symm)] at he2
      have hk2 := hInv.entryKey mid2 e2 he2
      have hkne : getValueKey e2.mode e2.value ≠ getValueKey mode value := by
        intro hc
        rw [hc, hkey] at hk2
        cases hk2
      rw [alookup_aset_ne _ _ (fun hc => hkne hc.symm)]
      exact hk2
  · intro k mid2 hk
    by_cases hkk : k = getValueKey mode value
    · subst hkk
      rw [alookup_aset_self] at hk
      injection hk with hk
      subst hk
      refine ⟨_, by rw [alookup_aset_self], ?_⟩
      rw [renderEntry_mode, renderEntry_value]
    · rw [alookup_aset_ne _ _ (fun hc => hkk hc.symm)] at hk
      obtain ⟨e2, he2, hke2⟩ := hInv.keyEntry k mid2 hk
      have hmm : mid2 ≠ mkMirrorId st.nextUuid := by
        intro hc
        subst hc
        rw [hnme] at he2
        cases he2
      exact ⟨e2, by rw [alookup_aset_ne _ _ (fun hc => hmm hc.symm)]; exact he2, hke2⟩
  · intro j mid2 e2 hj he2
    by_cases hji : j = i
    · subst hji
      rw [alookup_aset_self] at hj
      injection hj with hj
      subst hj
      rw [alookup_aset_self] at he2
      injection he2 with he2
      subst he2
      rw [alookup_aset_self, renderEntry_mode]
    · rw [alookup_aset_ne _ _ (fun hc => hji hc.symm)] at hj
      rw [alookup_aset_ne _ _ (fun hc => hji hc.symm)]
      have hmm : mid2 ≠ mkMirrorId st.nextUuid := fun hc => hnmi j (hc ▸ hj)
      rw [alookup_aset_ne _ _ (fun hc => hmm hc.symm)] at he2
      exact hInv.modeEq j mid2 e2 hj he2
  · intro j mid2 hj
    by_cases hji : j = i
    · subst hji
      exact hib
    · rw [alookup_aset_ne _ _ (fun hc => hji hc.symm)] at hj
      obtain ⟨jn, hjn, hje⟩ := hInv.instBound j mid2 hj
      exact ⟨jn, show jn < u2 by omega, hje⟩
  · intro mid2 e2 he2
    by_cases hmm : mid2 = mkMirrorId st.nextUuid
    · subst hmm
      exact ⟨st.nextUuid, show st.nextUuid < u2 by omega, rfl⟩
    · rw [alookup_aset_ne _ _ (fun hc => hmm hc.symm)] at he2
      obtain ⟨jn, hjn, hje⟩ := hInv.midBound mid2 e2 he2
      exact ⟨jn, show jn < u2 by omega, hje⟩

theorem init_c4 (f : String → Nat) : C4Inv initState f :=
  ⟨List.nodup_nil,
   fun _ _ h => Option.noConfusion h,
   fun _ _ h => Option.noConfusion h,
   fun _ _ h => Option.noConfusion h,
   fun _ _ _ _ h _ _ => Option.noConfusion h,
   fun _ _ h => Option.noConfusion h,
   fun _ _ h => Option.noConfusion h,
   fun _ _ h => Option.noConfusion h,
   fun _ _ _ h _ => Option.noConfusion h,
   fun _ _ h => Option.noConfusion h,
   fun _ _ h => Option.noConfusion h⟩

theorem rekey_c4 (st : MState) (f : String → Nat) (mid : String)
    (ce ce2 : MirrorEntry) (v2 : String) (cont : List MirrorNode)
    (idm : List (String × MirrorEntry))
    (hInv : C4Inv st f)
    (he : alookup mid st.idToEntry = some ce)
    (hcv : ce2.count = ce.count) (hmv : ce2.mode = ce.mode)
    (hidm : ∀ mid2, alookup mid2 idm
      = if mid2 = mid then some ce2 else alookup mid2 st.idToEntry)
    (hkey2 : alookup (getValueKey ce.mode v2) st.valueToMirror = none) :
    C4Inv { st with
      container := cont
      valueToMirror := aset (getValueKey ce.mode v2) mid
        (aerase (getValueKey ce.mode ce.value) st.valueToMirror)
      idToEntry := aset mid { ce2 with value := v2 } idm } f := by
  have hlook : ∀ mid2, alookup mid2 (aset mid { ce2 with value := v2 } idm)
      = if mid2 = mid then some { ce2 with value := v2 }
        else alookup mid2 st.idToEntry := by
    intro mid2
    by_cases hmm : mid2 = mid
    · rw [hmm, if_pos rfl, alookup_aset_self]
    · rw [if_neg hmm, alookup_aset_ne _ _ (fun hc => hmm hc.symm), hidm, if_neg hmm]
  constructor
  · exact hInv.nodupInst
  · intro j mid2 hj
    rw [hlook]
    by_cases hmm : mid2 = mid
    · rw [if_pos hmm]
      exact ⟨_, rfl⟩
    · rw [if_neg hmm]
      exact hInv.instEntry j mid2 hj
  · exact hInv.instObs
  · exact hInv.cbTrack
  · exact hInv.fInj
  · intro mid2 e2 he2
    rw [hlook] at he2
    by_cases hmm : mid2 = mid
    · rw [if_pos hmm] at he2
      injection he2 with he2
      subst he2
      obtain ⟨hc, hp⟩ := hInv.countEq mid ce he
      simp only [hcv]
      subst hmm
      exact ⟨hc, hp⟩
    · rw [if_neg hmm] at he2
      exact hInv.countEq mid2 e2 he2
  · intro mid2 e2 he2
    rw [hlook] at he2
    by_cases hmm : mid2 = mid
    · rw [if_pos hmm] at he2
      injection he2 with he2
      subst he2
      show alookup (getValueKey ce2.mode v2) _ = _
      rw [hmv, alookup_aset_self, hmm]
    · rw [if_neg hmm] at he2
      have hk2 := hInv.entryKey mid2 e2 he2
      have hkne2 : getValueKey e2.mode e2.value ≠ getValueKey ce.mode v2 := by
        intro hc
        rw [hc, hkey2] at hk2
        cases hk2
      have hkne1 : getValueKey e2.mode e2.value ≠ getValueKey ce.mode ce.value := by
        intro hc
        have hk1 := hInv.entryKey mid ce he
        rw [hc, hk1] at hk2
        injection hk2 with hk2
        exact hmm hk2.symm
      rw [alookup_aset_ne _ _ (fun hc => hkne2 hc.symm),
        alookup_aerase_ne _ (fun hc => hkne1 hc.symm)]
      exact hk2
  · intro k mid2 hk
    by_cases hkk : k = getValueKey ce.mode v2
    · rw [hkk, alookup_aset_self] at hk
      injection hk with hk
      subst hk
      refine ⟨{ ce2 with value := v2 }, ?_, ?_⟩
      · rw [hlook, if_pos rfl]
      · rw [hkk]
        show _ = getValueKey ce2.mode v2
        rw [hmv]
    · rw [alookup_aset_ne _ _ (fun hc => hkk hc.symm)] at hk
      obtain ⟨hkold, hko⟩ := alookup_aerase_some hk
      obtain ⟨e2, he2, hke2⟩ := hInv.keyEntry k mid2 hko
      have hmm : mid2 ≠ mid := by
        intro hc
        subst hc
        rw [he] at he2
        injection he2 with he2
        subst he2
        exact hkold hke2
      exact ⟨e2, by rw [hlook, if_neg hmm]; exact he2, hke2⟩
  · intro j mid2 e2 hj he2
    rw [hlook] at he2
    by_cases hmm : mid2 = mid
    · rw [if_pos hmm] at he2
      injection he2 with he2
      subst he2
      show _ = some ce2.mode
      rw [hmv]
      exact hInv.modeEq j mid2 ce hj (hmm ▸ he)
    · rw [if_neg hmm] at he2
      exact hInv.modeEq j mid2 e2 hj he2
  · exact hInv.instBound
  · intro mid2 e2 he2
    rw [hlook] at he2
    by_cases hmm : mid2 = mid
    · subst hmm
      exact hInv.midBound mid2 ce he
    · rw [if_neg hmm] at he2
      exact hInv.midBound mid2 e2 he2

theorem register_c4 (st : MState) (f : String → Nat) (parseHtml : String → DomForest)
    (v : String) (cb : Nat) (opts : Option TranslateMode)
    (hInv : C4Inv st f) (hcf : ∀ p ∈ st.observers, cb ∉ p.2) :
    ∃ f2 : String → Nat, C4Inv (register parseHtml v cb opts st).2 f2 := by
  cases hk : alookup (getValueKey (getTranslateMode opts) v) st.valueToMirror with
  | some mid =>
    obtain ⟨e, he, hkeq⟩ := hInv.keyEntry _ mid hk
    obtain ⟨hme, hve⟩ := getValueKey_inj hkeq
    obtain ⟨hcnt, hcpos⟩ := hInv.countEq mid e he
    have hpos : 1 ≤ countInst st.instanceToMirror mid := by omega
    obtain ⟨j0, hj0⟩ := countInst_pos hInv.nodupInst hpos
    obtain ⟨s, hs, hfs0⟩ := hInv.instObs j0 mid hj0
    refine ⟨fun x => if x = mkInstanceId st.nextUuid then cb else f x, ?_⟩
    have hfin : ∀ j, (∃ mid2, alookup j st.instanceToMirror = some mid2) →
        j ≠ mkInstanceId st.nextUuid := by
      rintro j ⟨mid2, hj⟩ hji
      obtain ⟨jn, hjn, hje⟩ := hInv.instBound j mid2 hj
      rw [hji] at hje
      have := mkInstanceId_inj hje
      omega
    have hagree : ∀ j mid2, alookup j st.instanceToMirror = some mid2 →
        f j = (fun x => if x = mkInstanceId st.nextUuid then cb else f x) j := by
      intro j mid2 hj
      simp only
      rw [if_neg (hfin j ⟨mid2, hj⟩)]
    have hInv2 := C4Inv_congr hagree hInv
    have hinone : alookup (mkInstanceId st.nextUuid) st.instanceToMirror = none := by
      cases h : alookup (mkInstanceId st.nextUuid) st.instanceToMirror with
      | none => rfl
      | some mid2 => exact absurd rfl (hfin _ ⟨mid2, h⟩)
    have hfresh : ∀ j mid2, alookup j st.instanceToMirror = some mid2 →
        (fun x => if x = mkInstanceId st.nextUuid then cb else f x) j
          ≠ (fun x => if x = mkInstanceId st.nextUuid then cb else f x)
            (mkInstanceId st.nextUuid) := by
      intro j mid2 hj
      simp only [if_pos, if_neg (hfin j ⟨mid2, hj⟩)]
      obtain ⟨sj, hsj, hfj⟩ := hInv.instObs j mid2 hj
      intro hc
      exact hcf (mid2, sj) (alookup_mem hsj) (hc ▸ hfj)
    have hA := attach_c4 st (fun x => if x = mkInstanceId st.nextUuid then cb else f x)
      (mkInstanceId st.nextUuid) mid e s
      (aset (mkInstanceId st.nextUuid) cb st.instanceToCallback)
      (st.nextUuid + 1) st.container hInv2 hinone he hs hfresh
      (Or.inr (by simp)) (by omega) ⟨st.nextUuid, by omega, rfl⟩
    have hk2 : alookup (getValueKey e.mode v) st.valueToMirror = some mid := hme ▸ hk
    convert hA using 1
    simp [register, hk, hk2, he, hs, hme]
  | none =>
    refine ⟨fun x => if x = mkInstanceId (st.nextUuid + 1) then cb else f x, ?_⟩
    have hfin : ∀ j, (∃ mid2, alookup j st.instanceToMirror = some mid2) →
        j ≠ mkInstanceId (st.nextUuid + 1) := by
      rintro j ⟨mid2, hj⟩ hji
      obtain ⟨jn, hjn, hje⟩ := hInv.instBound j mid2 hj
      rw [hji] at hje
      have := mkInstanceId_inj hje
      omega
    have hagree : ∀ j mid2, alookup j st.instanceToMirror = some mid2 →
        f j = (fun x => if x = mkInstanceId (st.nextUuid + 1) then cb else f x) j := by
      intro j mid2 hj
      simp only
      rw [if_neg (hfin j ⟨mid2, hj⟩)]
    have hInv2 := C4Inv_congr hagree hInv
    have hinone : alookup (mkInstanceId (st.nextUuid + 1)) st.instanceToMirror = none := by
      cases h : alookup (mkInstanceId (st.nextUuid + 1)) st.instanceToMirror with
      | none => rfl
      | some mid2 => exact absurd rfl (hfin _ ⟨mid2, h⟩)
    have hfresh : ∀ j mid2, alookup j st.instanceToMirror = some mid2 →
        (fun x => if x = mkInstanceId (st.nextUuid + 1) then cb else f x) j
          ≠ (fun x => if x = mkInstanceId (st.nextUuid + 1) then cb else f x)
            (mkInstanceId (st.nextUuid + 1)) := by
      intro j mid2 hj
      simp only [if_pos, if_neg (hfin j ⟨mid2, hj⟩)]
      obtain ⟨sj, hsj, hfj⟩ := hInv.instObs j mid2 hj
      intro hc
      exact hcf (mid2, sj) (alookup_mem hsj) (hc ▸ hfj)
    have hA := create_c4 st
      (fun x => if x = mkInstanceId (st.nextUuid + 1) then cb else f x)
      (mkInstanceId (st.nextUuid + 1)) v (getTranslateMode opts)
      (aset (mkInstanceId (st.nextUuid + 1)) cb st.instanceToCallback)
      (st.nextUuid + 2) (st.nextNode + 1)
      ((register parseHtml v cb opts st).2.container)
      parseHtml hInv2 hinone hk hfresh
      (Or.inr (by simp)) (by omega) ⟨st.nextUuid + 1, by omega, rfl⟩
    convert hA using 1
    simp [register, hk]

theorem unregister_c4 (st : MState) (f : String → Nat) (i : String)
    (hInv : C4Inv st f) : C4Inv (unregister i st) f := by
  unfold unregister
  cases hm : alookup i st.instanceToMirror with
  | none => exact hInv
  | some mid =>
    cases hc : alookup i st.instanceToCallback with
    | none => exact hInv
    | some c =>
      have hcf : c = f i := (hInv.cbTrack i c hc).2
      subst hcf
      exact (detach_c4 st f i mid hInv hm).1

theorem updateValue_c4 (st : MState) (f : String → Nat)
    (parseHtml : String → DomForest) (i v2 : String)
    (hInv : C4Inv st f) : C4Inv (updateValue parseHtml i v2 st) f := by
  unfold updateValue
  cases hm : alookup i st.instanceToMirror with
  | none => exact hInv
  | some mid =>
    obtain ⟨e, he⟩ := hInv.instEntry i mid hm
    have hmode : alookup i st.instanceToMode = some e.mode := hInv.modeEq i mid e hm he
    simp only [hmode, he, Option.getD_some, Option.map_some', Option.some.injEq]
    by_cases hval : e.value = v2
    · rw [if_pos hval]
      exact hInv
    · rw [if_neg hval]
      cases hc : alookup i st.instanceToCallback with
      | none => exact hInv
      | some c =>
        have hcfi : c = f i := (hInv.cbTrack i c hc).2
        subst hcfi
        cases hk : alookup (getValueKey e.mode v2) st.valueToMirror with
        | some targetMid =>
          obtain ⟨te, hte, hket⟩ := hInv.keyEntry _ targetMid hk
          have htm : targetMid ≠ mid := by
            intro hq
            subst hq
            rw [he] at hte
            injection hte with hte
            subst hte
            obtain ⟨hme2, hve2⟩ := getValueKey_inj hket
            exact hval hve2.symm
          obtain ⟨hD, hM, hC, hMo, hU, hN, hFE, hFO, hFV⟩ := detach_c4 st f i mid hInv hm
          have hte1 : alookup targetMid (detachInstance i mid (f i) st).idToEntry
              = some te := by
            rw [hFE targetMid htm]
            exact hte
          obtain ⟨hcntT, hposT⟩ := hInv.countEq targetMid te hte
          have hposT2 : 1 ≤ countInst st.instanceToMirror targetMid := by omega
          obtain ⟨j0, hj0⟩ := countInst_pos hInv.nodupInst hposT2
          obtain ⟨sT, hsT, hfsT⟩ := hInv.instObs j0 targetMid hj0
          have hsT1 : alookup targetMid (detachInstance i mid (f i) st).observers
              = some sT := by
            rw [hFO targetMid htm]
            exact hsT
          have hinone1 : alookup i (detachInstance i mid (f i) st).instanceToMirror
              = none := by
            rw [hM]
            exact alookup_aerase_self i st.instanceToMirror
          have hfresh1 : ∀ j mid2,
              alookup j (detachInstance i mid (f i) st).instanceToMirror = some mid2 →
              f j ≠ f i := by
            intro j mid2 hj
            rw [hM] at hj
            obtain ⟨hji, hjo⟩ := alookup_aerase_some hj
            intro hq
            exact hji (hInv.fInj j i mid2 mid hjo hm hq)
          obtain ⟨jn, hjn, hje⟩ := hInv.instBound i mid hm
          have hA := attach_c4 (detachInstance i mid (f i) st) f i targetMid te sT
            (detachInstance i mid (f i) st).instanceToCallback
            (detachInstance i mid (f i) st).nextUuid
            (detachInstance i mid (f i) st).container
            hD hinone1 hte1 hsT1 hfresh1 (Or.inl rfl) le_rfl
            ⟨jn, by rw [hU]; omega, hje⟩
          convert hA using 1
          simp [hte, hte1, hsT1]
        | none =>
          by_cases hcount : e.count = 1
          · simp only [if_pos hcount]
            cases hfc : findChild mid st.container with
            | none =>
              have hA := rekey_c4 st f mid e e v2 st.container st.idToEntry hInv he
                rfl rfl
                (fun mid2 => by
                  by_cases hq : mid2 = mid
                  · rw [if_pos hq, hq]
                    exact he
                  · rw [if_neg hq])
                hk
              convert hA using 1
              simp [he]
            | some nd =>
              cases hem : e.mode with
              | html =>
                have hA := rekey_c4 st f mid e
                  { e with
                    template := some (buildHtmlMirror parseHtml v2).template
                    textCount := some (buildHtmlMirror parseHtml v2).textCount }
                  v2
                  (replaceChildKids mid (buildHtmlMirror parseHtml v2).mirrorForest
                    st.container)
                  (aset mid
                    { e with
                      template := some (buildHtmlMirror parseHtml v2).template
                      textCount := some (buildHtmlMirror parseHtml v2).textCount }
                    st.idToEntry)
                  hInv he rfl rfl
                  (fun mid2 => by
                    by_cases hq : mid2 = mid
                    · rw [if_pos hq, hq, alookup_aset_self]
                    · rw [if_neg hq, alookup_aset_ne _ _ (fun h2 => hq h2.symm)])
                  (hem ▸ hk)
                convert hA using 1
                simp [hem]
              | text =>
                by_cases hit : innerTextF nd.kids = v2
                · have hA := rekey_c4 st f mid e e v2 st.container st.idToEntry hInv he
                    rfl rfl
                    (fun mid2 => by
                      by_cases hq : mid2 = mid
                      · rw [if_pos hq, hq]
                        exact he
                      · rw [if_neg hq])
                    hk
                  convert hA using 1
                  simp [hem, hit, he]
                · have hA := rekey_c4 st f mid e e v2
                    (replaceChildKids mid (DomForest.cons (DomNode.text v2) DomForest.nil)
                      st.container)
                    st.idToEntry hInv he rfl rfl
                    (fun mid2 => by
                      by_cases hq : mid2 = mid
                      · rw [if_pos hq, hq]
                        exact he
                      · rw [if_neg hq])
                    hk
                  convert hA using 1
                  simp [hem, hit, he]
          · simp only [if_neg hcount]
            obtain ⟨hD, hM, hC, hMo, hU, hN, hFE, hFO, hFV⟩ :=
              detach_c4 st f i mid hInv hm
            have hkey1 : alookup (getValueKey e.mode v2)
                (detachInstance i mid (f i) st).valueToMirror = none := hFV _ hk
            have hinone1 : alookup i (detachInstance i mid (f i) st).instanceToMirror
                = none := by
              rw [hM]
              exact alookup_aerase_self i st.instanceToMirror
            have hfresh1 : ∀ j mid2,
                alookup j (detachInstance i mid (f i) st).instanceToMirror = some mid2 →
                f j ≠ f i := by
              intro j mid2 hj
              rw [hM] at hj
              obtain ⟨hji, hjo⟩ := alookup_aerase_some hj
              intro hq
              exact hji (hInv.fInj j i mid2 mid hjo hm hq)
            obtain ⟨jn, hjn, hje⟩ := hInv.instBound i mid hm
            have hA := create_c4 (detachInstance i mid (f i) st) f i v2 e.mode
              (detachInstance i mid (f i) st).instanceToCallback
              ((detachInstance i mid (f i) st).nextUuid + 1)
              ((detachInstance i mid (f i) st).nextNode + 1)
              ((updateFork parseHtml i mid v2 e.mode (f i) st).container)
              parseHtml hD hinone1 hkey1 hfresh1 (Or.inl rfl) (by omega)
              ⟨jn, by rw [hU]; omega, hje⟩
            convert hA using 1

/- One call into the MirrorManager API: `register(value, onChange, options)`,
`updateValue(instanceId, newValue)`, or `unregister(instanceId)`. -/
inductive MOp where
  | reg (value : String) (cb : Nat) (opts : Option TranslateMode)
  | upd (instanceId newValue : String)
  | unreg (instanceId : String)

def applyOp (parseHtml : String → DomForest) : MOp → MState → MState
  | .reg v cb o, st => (register parseHtml v cb o st).2
  | .upd i v, st => updateValue parseHtml i v st
  | .unreg i, st => unregister i st

/-- The callback being registered is not currently in any observer set (a
fresh function object per `register` call). -/
def cbFresh (st : MState) (cb : Nat) : Prop := ∀ p ∈ st.observers, cb ∉ p.2

def ValidOp (st : MState) : MOp → Prop
  | .reg _ cb _ => cbFresh st cb
  | .upd _ _ => True
  | .unreg _ => True

instance cbFreshDec (st : MState) (cb : Nat) : Decidable (cbFresh st cb) :=
  inferInstanceAs (Decidable (∀ p ∈ st.observers, cb ∉ p.2))

instance validOpDec (st : MState) : (op : MOp) → Decidable (ValidOp st op)
  | .reg _ cb _ => inferInstanceAs (Decidable (cbFresh st cb))
  | .upd _ _ => inferInstanceAs (Decidable True)
  | .unreg _ => inferInstanceAs (Decidable True)

/- A sequence of API calls from a fresh manager in which every registered
callback is fresh at registration time. -/
inductive GoodRun (parseHtml : String → DomForest) : List MOp → MState → Prop where
  | start : GoodRun parseHtml [] initState
  | step (ops : List MOp) (st : MState) (op : MOp) :
      GoodRun parseHtml ops st → ValidOp st op →
      GoodRun parseHtml (ops ++ [op]) (applyOp parseHtml op st)

theorem goodRun_c4 (parseHtml : String → DomForest) (ops : List MOp) (st : MState)
    (h : GoodRun parseHtml ops st) : ∃ f : String → Nat, C4Inv st f := by
  induction h with
  | start => exact ⟨fun _ => 0, init_c4 _⟩
  | step ops st op hrun hvalid ih =>
    obtain ⟨f, hf⟩ := ih
    cases op with
    | reg v cb o => exact register_c4 st f parseHtml v cb o hf hvalid
    | upd i v => exact ⟨f, updateValue_c4 st f parseHtml i v hf⟩
    | unreg i => exact ⟨f, unregister_c4 st f i hf⟩

/-- Claim C4 (amended): after any sequence of register/updateValue/unregister
calls from a fresh manager in which each registered callback is fresh (not
already in any observer set — distinct function objects per call), there is an
assignment `f` of callbacks to instances such that every live instance
references a live MirrorEntry, its callback `f i` is in that entry's observer
set, and the callback table, where populated, agrees with `f`; consequently,
when two live instances share one entry, unregistering one leaves the other
attached with its callback still in the entry's observer set.  The claim's
further assertion that this also holds when both instances were registered
with the same callback function is false (see the counterexample). -/
theorem c4_instance_invariant (parseHtml : String → DomForest)
    (ops : List MOp) (st : MState) (hrun : GoodRun parseHtml ops st) :
    ∃ f : String → Nat,
      (∀ i mid, alookup i st.instanceToMirror = some mid →
        (∃ e, alookup mid st.idToEntry = some e) ∧
        (∃ s, alookup mid st.observers = some s ∧ f i ∈ s) ∧
        (∀ c, alookup i st.instanceToCallback = some c → c = f i)) ∧
      (∀ i j mid, i ≠ j →
        alookup i st.instanceToMirror = some mid →
        alookup j st.instanceToMirror = some mid →
        alookup j (unregister i st).instanceToMirror = some mid ∧
        ∃ s2, alookup mid (unregister i st).observers = some s2 ∧ f j ∈ s2) := by
  obtain ⟨f, hf⟩ := goodRun_c4 parseHtml ops st hrun
  refine ⟨f, ?_, ?_⟩
  · intro i mid hi
    exact ⟨hf.instEntry i mid hi, hf.instObs i mid hi, fun c hc => (hf.cbTrack i c hc).2⟩
  · intro i j mid hij hi hj
    cases hcb : alookup i st.instanceToCallback with
    | none =>
      have hun : unregister i st = st := by
        simp only [unregister, hi, hcb]
      rw [hun]
      exact ⟨hj, hf.instObs j mid hj⟩
    | some c =>
      have hcf : c = f i := (hf.cbTrack i c hcb).2
      have hun : unregister i st = detachInstance i mid (f i) st := by
        simp only [unregister, hi, hcb, hcf]
      obtain ⟨hD, hM, hC, hMo, hU, hN, hFE, hFO, hFV⟩ := detach_c4 st f i mid hf hi
      rw [hun]
      have hj2 : alookup j (detachInstance i mid (f i) st).instanceToMirror
          = some mid := by
        rw [hM, alookup_aerase_ne _ hij]
        exact hj
      exact ⟨hj2, hD.instObs j mid hj2⟩

theorem c4_instance_invariant_witness :
    ∃ f : String → Nat,
      (∀ i mid,
        alookup i (applyOp (fun _ => DomForest.nil) (MOp.unreg (mkInstanceId 1))
          (applyOp (fun _ => DomForest.nil) (MOp.reg "v" 8 none)
            (applyOp (fun _ => DomForest.nil) (MOp.reg "v" 7 none)
              initState))).instanceToMirror = some mid →
        (∃ e, alookup mid (applyOp (fun _ => DomForest.nil) (MOp.unreg (mkInstanceId 1))
          (applyOp (fun _ => DomForest.nil) (MOp.reg "v" 8 none)
            (applyOp (fun _ => DomForest.nil) (MOp.reg "v" 7 none)
              initState))).idToEntry = some e) ∧
        (∃ s, alookup mid (applyOp (fun _ => DomForest.nil) (MOp.unreg (mkInstanceId 1))
          (applyOp (fun _ => DomForest.nil) (MOp.reg "v" 8 none)
            (applyOp (fun _ => DomForest.nil) (MOp.reg "v" 7 none)
              initState))).observers = some s ∧ f i ∈ s) ∧
        (∀ c, alookup i (applyOp (fun _ => DomForest.nil) (MOp.unreg (mkInstanceId 1))
          (applyOp (fun _ => DomForest.nil) (MOp.reg "v" 8 none)
            (applyOp (fun _ => DomForest.nil) (MOp.reg "v" 7 none)
              initState))).instanceToCallback = some c → c = f i)) ∧
      (∀ i j mid, i ≠ j →
        alookup i (applyOp (fun _ => DomForest.nil) (MOp.unreg (mkInstanceId 1))
          (applyOp (fun _ => DomForest.nil) (MOp.reg "v" 8 none)
            (applyOp (fun _ => DomForest.nil) (MOp.reg "v" 7 none)
              initState))).instanceToMirror = some mid →
        alookup j (applyOp (fun _ => DomForest.nil) (MOp.unreg (mkInstanceId 1))
          (applyOp (fun _ => DomForest.nil) (MOp.reg "v" 8 none)
            (applyOp (fun _ => DomForest.nil) (MOp.reg "v" 7 none)
              initState))).instanceToMirror = some mid →
        alookup j (unregister i (applyOp (fun _ => DomForest.nil)
          (MOp.unreg (mkInstanceId 1))
          (applyOp (fun _ => DomForest.nil) (MOp.reg "v" 8 none)
            (applyOp (fun _ => DomForest.nil) (MOp.reg "v" 7 none)
              initState)))).instanceToMirror = some mid ∧
        ∃ s2, alookup mid (unregister i (applyOp (fun _ => DomForest.nil)
          (MOp.unreg (mkInstanceId 1))
          (applyOp (fun _ => DomForest.nil) (MOp.reg "v" 8 none)
            (applyOp (fun _ => DomForest.nil) (MOp.reg "v" 7 none)
              initState)))).observers = some s2 ∧ f j ∈ s2) :=
  c4_instance_invariant (fun _ => DomForest.nil)
    [MOp.reg "v" 7 none, MOp.reg "v" 8 none, MOp.unreg (mkInstanceId 1)] _
    (GoodRun.step _ _ _
      (GoodRun.step _ _ _
        (GoodRun.step _ _ _ GoodRun.start (by decide))
        (by decide))
      (by decide))

/-- Claim C4, counterexample to the original claim's same-callback case:
register the same value twice with the SAME callback `7` (a dedup hit whose
`Set.add` is a no-op), then unregister the first instance.  The surviving
second instance is still attached to the live entry (refCount 1) and its
callback table still records `7`, but the entry's observer set has been
deleted entirely (`observers.get(mirrorId)` is undefined): the surviving
instance's callback is NOT in the entry's callback set, and no further
change notifications can reach it. -/
theorem c4_instance_invariant_counterexample :
    alookup (mkInstanceId 2)
        (unregister (mkInstanceId 1)
          (register (fun _ => DomForest.nil) "v" 7 none
            (register (fun _ => DomForest.nil) "v" 7 none
              initState).2).2).instanceToMirror = some (mkMirrorId 0) ∧
    alookup (mkInstanceId 2)
        (unregister (mkInstanceId 1)
          (register (fun _ => DomForest.nil) "v" 7 none
            (register (fun _ => DomForest.nil) "v" 7 none
              initState).2).2).instanceToCallback = some 7 ∧
    (alookup (mkMirrorId 0)
        (unregister (mkInstanceId 1)
          (register (fun _ => DomForest.nil) "v" 7 none
            (register (fun _ => DomForest.nil) "v" 7 none
              initState).2).2).idToEntry).map MirrorEntry.count = some 1 ∧
    alookup (mkMirrorId 0)
        (unregister (mkInstanceId 1)
          (register (fun _ => DomForest.nil) "v" 7 none
            (register (fun _ => DomForest.nil) "v" 7 none
              initState).2).2).observers = none := by
  refine ⟨?_, ?_, ?_, ?_⟩ <;> decide

end STB
